import Mathlib

/-!
# Verification of the pixi-examples scene suite

Shallow embedding of the TypeScript sources of the `pixi-examples` repository:
the `SceneManager` scene-change orchestration, the `MixedText` inline layout
engine, the `AceOfShadowsScene` card stacks and the `SeedsScene` physics
simulation.  JavaScript numbers are modelled as exact rationals (`ℚ`); browser
side effects (stage mutation, asset loading, timers) are modelled as explicit
event traces or explicit state records.
-/

namespace PixiExamples

/-! ## Configuration constants (src/config.ts) -/

/-- `config.design.width` -/
def designWidth : Nat := 720

/-- `config.design.height` -/
def designHeight : Nat := 1280

/-- `config.loading.minDisplayTime`: minimum time (ms) to show the loading screen. -/
def minDisplayTime : Nat := 500

namespace SceneManager

/-- Observable effects performed by `SceneManager.changeScene`
(src/SceneManager.ts, lines 42–99). -/
inductive Event where
  /-- `this.loadingScene.setProgress(p)` -/
  | setProgress (p : ℚ)
  /-- `this._app.stage.addChild(this.loadingScene)` -/
  | showLoading
  /-- `this._app.stage.removeChild(this.currentScene)` -/
  | removeCurrentScene
  /-- `this.currentScene.cleanup()` -/
  | cleanupCurrent
  /-- `this.currentScene.destroy(\x7b children: true \x7d)` -/
  | destroyCurrent
  /-- `Assets.loadBundle(bundleId, ...)` begins -/
  | loadStart (id : String)
  /-- the bundle load promise resolved -/
  | loadSuccess (id : String)
  /-- the bundle load promise rejected -/
  | loadFailed (id : String)
  /-- `console.error("Failed to load bundle", ...)` in the catch block -/
  | logError
  /-- `setTimeout(resolve, ms)`: the awaited minimum-display-time delay -/
  | waitDelay (ms : Nat)
  /-- the scene factory is invoked (or the passed instance taken) -/
  | createScene
  /-- `await newScene.init()` -/
  | initScene
  /-- `this._app.stage.removeChild(this.loadingScene)` -/
  | removeLoading
  /-- `this._app.stage.addChild(this.currentScene)` -/
  | addNewScene
  /-- `this.currentScene.resize(this.DESIGN_W, this.DESIGN_H)` -/
  | resizeNew (w h : Nat)
deriving DecidableEq, Repr

/-- Models `Assets.loadBundle(id, progress => loadingScene.setProgress(progress))`:
the progress callback fires for each reported value, then the promise either
resolves (`ok = true`) or rejects (`ok = false`).  On rejection the events fired
so far are carried by the `error` branch. -/
def loadBundle (id : String) (progressCalls : List ℚ) (ok : Bool) :
    Except (List Event) (List Event) :=
  if ok then
    Except.ok (progressCalls.map Event.setProgress ++ [Event.loadSuccess id])
  else
    Except.error (progressCalls.map Event.setProgress ++ [Event.loadFailed id])

/-- The `Min display time` block of `changeScene`: `elapsed` is
`Date.now() - startTime` when the load has finished; when it is below
`minDisplayTime` the code awaits a timeout for exactly the remainder. -/
def waitPhase (elapsed : Nat) : List Event :=
  if elapsed < minDisplayTime then [Event.waitDelay (minDisplayTime - elapsed)] else []

/-- Shallow embedding of `SceneManager.changeScene` (src/SceneManager.ts, lines
42–99) as the trace of observable effects.  Inputs: whether a `bundleId` was
passed, whether a `currentScene` exists, the progress values reported by the
bundle loader, whether the load resolves, the elapsed wall-clock milliseconds
when the load settles, and whether the new scene has an `init` method.  The
result is `Except`: an uncaught promise rejection would surface as `.error`,
but the `try/catch` around `Assets.loadBundle` turns a load failure into a
logged error and the function continues. -/
def changeScene (bundleId : Option String) (hasCurrent : Bool)
    (progressCalls : List ℚ) (loadOk : Bool) (elapsed : Nat) (hasInit : Bool) :
    Except String (List Event) :=
  let showLoadingScreen := bundleId.isSome
  -- 1. Show LoadingScene if bundle needed
  let showPhase :=
    if showLoadingScreen then [Event.setProgress 0, Event.showLoading] else []
  -- 2. Cleanup current scene
  let teardownPhase :=
    if hasCurrent then
      [Event.removeCurrentScene, Event.cleanupCurrent, Event.destroyCurrent]
    else []
  -- 3. Load bundle (if provided); rejection is caught and logged, then
  --    progress is forced to 1 and the minimum display time is awaited
  let loadPhase :=
    match bundleId with
    | some id =>
        Event.loadStart id ::
          (match loadBundle id progressCalls loadOk with
           | Except.ok evs => evs
           | Except.error evs => evs ++ [Event.logError])
          ++ [Event.setProgress 1] ++ waitPhase elapsed
    | none => []
  -- 4./5. Create new scene and await its init if it exists
  let createPhase :=
    [Event.createScene] ++ (if hasInit then [Event.initScene] else [])
  -- 6. Now safe to swap
  let swapPhase :=
    (if showLoadingScreen then [Event.removeLoading] else [])
      ++ [Event.addNewScene, Event.resizeNew designWidth designHeight]
  Except.ok (showPhase ++ teardownPhase ++ loadPhase ++ createPhase ++ swapPhase)

/-- The event trace of a `changeScene` call (it always resolves). -/
def changeSceneTrace (bundleId : Option String) (hasCurrent : Bool)
    (progressCalls : List ℚ) (loadOk : Bool) (elapsed : Nat) (hasInit : Bool) :
    List Event :=
  ((changeScene bundleId hasCurrent progressCalls loadOk elapsed hasInit).toOption).getD []

/-- Sum of the awaited delays in the minimum-display-time phase. -/
def waitTotal (elapsed : Nat) : Nat :=
  ((waitPhase elapsed).map (fun e => match e with | Event.waitDelay d => d | _ => 0)).sum

end SceneManager

namespace AceOfShadows

/-! ## AceOfShadowsScene (src/scenes/AceOfShadowsScene.ts)

A card is modelled by its spritesheet frame index and its (tween-target)
position; a stack is a list whose END is the top, matching JS array
`push`/`pop`. -/

/-- A card sprite. -/
structure Card where
  frame : Nat
  x : ℚ
  y : ℚ
deriving DecidableEq, Repr

/-- The card containers of the scene. -/
structure SceneState where
  cards : List Card
  stack1 : List Card
  stack2 : List Card
deriving DecidableEq, Repr

/-- `this.offsetX = 0.3` -/
def offsetX : ℚ := 3/10

/-- `this.offsetY = 1.5` -/
def offsetY : ℚ := 3/2

/-- `calculatePositions`: centerX = width/2, centerY = height/2 + 50. -/
def centerX : ℚ := (designWidth : ℚ) / 2

def centerY : ℚ := (designHeight : ℚ) / 2 + 50

def startPosX : ℚ := centerX - 150
def startPosY : ℚ := centerY
def endPosX : ℚ := centerX + 150
def endPosY : ℚ := centerY

/-- `init` (lines 50–72): creates 144 card sprites (frame `i % frameCount`),
pushes each onto `cards` and `stack1`, and positions card `i` at the stack-1
base offset by `(i * offsetX, -(i * offsetY))`. -/
def sceneInit (frameCount : Nat) : SceneState :=
  let cs := (List.range 144).map fun i =>
    Card.mk (i % frameCount)
      (startPosX + i * offsetX)
      (startPosY - i * offsetY)
  { cards := cs, stack1 := cs, stack2 := [] }

/-- `moveTopCard` (lines 88–131): pops the top of `stack1`; when present,
pushes it onto `stack2` and tweens it to the stack-2 base offset by
`(stack2Index * offsetX, -(stack2Index * offsetY))` where `stack2Index` is the
new `stack2.length - 1`; the card's modelled position is the tween target. -/
def moveTopCard (st : SceneState) : SceneState :=
  match st.stack1.getLast? with
  | none => st
  | some card =>
    let stack2Index : Nat := st.stack2.length
    let targetX := endPosX + stack2Index * offsetX
    let targetY := endPosY - stack2Index * offsetY
    { st with
      stack1 := st.stack1.dropLast
      stack2 := st.stack2 ++ [{ card with x := targetX, y := targetY }] }

end AceOfShadows

namespace MixedText

/-! ## MixedText (src/ui/MixedText.ts)

Pixi `Text` measurement is modelled by a width oracle; textures are
width/height pairs.  Object pools are modelled by their sizes plus counters of
fresh allocations. -/

/-- A texture: its base width and height. -/
structure Tex where
  width : ℚ
  height : ℚ
deriving DecidableEq, Repr

/-- A layout element: a `Text` chunk or an inline `Sprite` with its uniform
scale. -/
inductive Node where
  | text (s : String)
  | sprite (tex : Tex) (scale : ℚ)
deriving DecidableEq, Repr

/-- The options and environment `build` reads: the style-dependent width
oracle for `Text`, the cached line height, the `images` token map, the
`Assets.cache`, and the layout options (`maxWidth` of `none` models the
default `Infinity`). -/
structure Ctx where
  textWidth : String → ℚ
  lineHeight : ℚ
  images : String → Option String
  cache : String → Option Tex
  maxWidth : Option ℚ
  gap : ℚ
  lineGap : ℚ
  placeholderTexture : Option Tex

/-- `node.width` as the layout reads it. -/
def nodeWidth (ctx : Ctx) : Node → ℚ
  | Node.text s => ctx.textWidth s
  | Node.sprite tex scale => tex.width * scale

/-- The wrap test `x + node.width > maxWidth`; never true for the default
`Infinity`. -/
def overflows (ctx : Ctx) (x w : ℚ) : Bool :=
  match ctx.maxWidth with
  | some m => decide (x + w > m)
  | none => false

/-- `part.slice(1, -1)`: the token key between the braces. -/
def tokenKey (part : String) : String := (part.drop 1).dropRight 1

/-- Lines 227–230: `alias && Assets.cache.has(alias) ? Assets.cache.get(alias)
: undefined`.  An empty-string alias is falsy in JS, so the cache is not
consulted for it. -/
def tokenTexture (ctx : Ctx) (part : String) : Option Tex :=
  match ctx.images (tokenKey part) with
  | some al => if al ≠ "" then ctx.cache al else none
  | none => none

/-- Line 232: `tex ?? placeholderTexture`. -/
def finalTexture (ctx : Ctx) (part : String) : Option Tex :=
  match tokenTexture ctx part with
  | some t => some t
  | none => ctx.placeholderTexture

/-- Lines 233–241: a token becomes a sprite scaled by
`(lineHeight * 0.9) / max(1, texture.height)` when a texture (cached or
placeholder) exists, and otherwise the raw token text. -/
def renderToken (ctx : Ctx) (part : String) : Node :=
  match finalTexture ctx part with
  | some tex =>
    let targetH := ctx.lineHeight * (9/10)
    let scale := targetH / max 1 tex.height
    Node.sprite tex scale
  | none => Node.text part

/-- A placed element: the node, its `x`, the value of the `y` cursor of its
line, and its width. -/
structure Placed where
  node : Node
  x : ℚ
  lineY : ℚ
  width : ℚ
deriving DecidableEq, Repr

/-- The mutable state of one `build` run: the layout cursor, the placed
elements, the pool sizes and the counts of freshly created objects. -/
structure BState where
  x : ℚ
  y : ℚ
  placed : List Placed
  textPool : Nat
  spritePool : Nat
  newTexts : Nat
  newSprites : Nat
deriving DecidableEq, Repr

/-- `getTextFromPool` (lines 140–150): reuses a pooled `Text` when the pool is
non-empty, otherwise creates a new one; the returned flag records whether a
new object was created. -/
def getTextFromPool (st : BState) : BState × Bool :=
  if 0 < st.textPool then ({ st with textPool := st.textPool - 1 }, false)
  else ({ st with newTexts := st.newTexts + 1 }, true)

/-- `getSpriteFromPool` (lines 153–163). -/
def getSpriteFromPool (st : BState) : BState × Bool :=
  if 0 < st.spritePool then ({ st with spritePool := st.spritePool - 1 }, false)
  else ({ st with newSprites := st.newSprites + 1 }, true)

/-- `placeNode` (lines 207–220): wraps to a new line when the cursor is past
the start of the line and the node would overflow, then records the node at
the cursor and advances `x` by the node width plus the gap. -/
def placeNode (ctx : Ctx) (st : BState) (node : Node) : BState :=
  let w := nodeWidth ctx node
  let st1 :=
    if 0 < st.x ∧ overflows ctx st.x w then
      { st with x := 0, y := st.y + ctx.lineHeight + ctx.lineGap }
    else st
  { st1 with
    x := st1.x + w + ctx.gap
    placed := st1.placed ++ [⟨node, st1.x, st1.y, w⟩] }

/-- `chunk.trim().length === 0`: trimming leaves nothing exactly when every
char is whitespace. -/
def isWhitespaceOnly (s : String) : Bool := s.toList.all Char.isWhitespace

/-- A part of the split text: a brace token or a whitespace/word chunk. -/
inductive Item where
  | tok (part : String)
  | chunk (s : String)
deriving DecidableEq, Repr

/-- One iteration of the `for part/chunk` loops (lines 222–261): a token is
rendered and placed, drawing from the matching pool; a text chunk is drawn
from the text pool, and either dropped back into the pool (overflowing
whitespace) or placed (placeNode itself performs the wrap, under exactly the
condition under which the source calls `newline()` first). -/
def stepItem (ctx : Ctx) (st : BState) (item : Item) : BState :=
  match item with
  | Item.tok part =>
    match renderToken ctx part with
    | Node.sprite tex scale =>
      let st1 := (getSpriteFromPool st).1
      placeNode ctx st1 (Node.sprite tex scale)
    | Node.text s =>
      let st1 := (getTextFromPool st).1
      placeNode ctx st1 (Node.text s)
  | Item.chunk s =>
    let st1 := (getTextFromPool st).1
    let w := ctx.textWidth s
    if 0 < st1.x ∧ overflows ctx st1.x w then
      if isWhitespaceOnly s then
        { st1 with textPool := st1.textPool + 1 }
      else
        placeNode ctx st1 (Node.text s)
    else
      placeNode ctx st1 (Node.text s)

/-- The whole layout loop. -/
def layout (ctx : Ctx) (items : List Item) (st0 : BState) : BState :=
  items.foldl (stepItem ctx) st0

/-- Scans for the closing brace of a lazy `.*?` token match; JS `.` matches
neither `\n` nor `\r`, so the match fails when a line break comes first.
Returns the chars before the brace and the remainder after it. -/
def scanToClose : List Char → Option (List Char × List Char)
  | [] => none
  | c :: rest =>
    if c = '}' then some ([], rest)
    else if c = '\n' ∨ c = '\r' then none
    else
      match scanToClose rest with
      | some (ins, aft) => some (c :: ins, aft)
      | none => none

/-- Fuel-indexed scanner for `text.split` on the lazy brace-token pattern with
a capture group, keeping the matched tokens and dropping empty strings
(`.filter(Boolean)`).  `acc` holds the current non-token stretch reversed.
The fuel is the remaining character count, which never runs out. -/
def splitTokensAux : Nat → List Char → List Char → List String
  | 0, acc, _ => if acc = [] then [] else [String.mk acc.reverse]
  | _ + 1, acc, [] => if acc = [] then [] else [String.mk acc.reverse]
  | fuel + 1, acc, c :: rest =>
    if c = '{' then
      match scanToClose rest with
      | some (ins, aft) =>
        (if acc = [] then [] else [String.mk acc.reverse])
          ++ [String.mk ('{' :: (ins ++ ['}']))]
          ++ splitTokensAux fuel [] aft
      | none => splitTokensAux fuel (c :: acc) rest
    else splitTokensAux fuel (c :: acc) rest

/-- Line 195: `text.split(token pattern).filter(Boolean)`. -/
def splitTokens (text : String) : List String :=
  splitTokensAux text.toList.length [] text.toList

/-- Groups a char list into maximal runs on which `p` is constant. -/
def groupRuns (p : Char → Bool) : List Char → List (List Char)
  | [] => []
  | c :: rest =>
    match groupRuns p rest with
    | [] => [[c]]
    | g :: gs =>
      match g with
      | [] => [c] :: gs
      | d :: _ => if p c = p d then (c :: g) :: gs else [c] :: g :: gs

/-- Line 246: `part.split(whitespace-run pattern).filter(Boolean)`: maximal
whitespace and non-whitespace runs, in order. -/
def splitChunks (s : String) : List String :=
  (groupRuns Char.isWhitespace s.toList).map fun g => String.mk g

/-- Line 223: `part.startsWith('\x7b') && part.endsWith('\x7d')`. -/
def isToken (part : String) : Bool :=
  part.startsWith "\x7b" && part.endsWith "\x7d"

/-- The item sequence the `build` loops iterate over. -/
def buildItems (text : String) : List Item :=
  (splitTokens text).flatMap fun part =>
    if isToken part then [Item.tok part]
    else (splitChunks part).map Item.chunk

/-- The persistent element/pool state of a `MixedText` instance. -/
structure MTState where
  elements : List Node
  textPool : Nat
  spritePool : Nat
deriving DecidableEq, Repr

def countTexts (els : List Node) : Nat :=
  (els.filter fun n => match n with | Node.text _ => true | _ => false).length

def countSprites (els : List Node) : Nat :=
  (els.filter fun n => match n with | Node.sprite _ _ => true | _ => false).length

/-- `returnToPool` (lines 166–176): every current element is removed from the
container and pushed onto the pool matching its type. -/
def returnToPool (st : MTState) : MTState :=
  { elements := []
    textPool := st.textPool + countTexts st.elements
    spritePool := st.spritePool + countSprites st.elements }

def initialBState (textPool spritePool : Nat) : BState :=
  { x := 0, y := 0, placed := [], textPool := textPool,
    spritePool := spritePool, newTexts := 0, newSprites := 0 }

/-- `build` (lines 191–262): returns the current elements to the pools, then
lays out the items of `text`. -/
def build (ctx : Ctx) (text : String) (st : MTState) : MTState :=
  let st0 := returnToPool st
  let b := layout ctx (buildItems text) (initialBState st0.textPool st0.spritePool)
  { elements := b.placed.map Placed.node
    textPool := b.textPool
    spritePool := b.spritePool }

/-- `setText` (lines 47–51): stops the typewriter (which touches neither
elements nor pools) and rebuilds. -/
def setText (ctx : Ctx) (text : String) (st : MTState) : MTState :=
  build ctx text st

/-- `setMaxWidth` (lines 53–56): updates the option and rebuilds. -/
def setMaxWidth (ctx : Ctx) (maxWidth : ℚ) (text : String) (st : MTState) : MTState :=
  build { ctx with maxWidth := some maxWidth } text st

/-- Placed-plus-pooled `Text` objects. -/
def totalTexts (st : MTState) : Nat := countTexts st.elements + st.textPool

/-- Placed-plus-pooled `Sprite` objects. -/
def totalSprites (st : MTState) : Nat := countSprites st.elements + st.spritePool

/-- The same total on a running build state. -/
def btotalTexts (b : BState) : Nat := countTexts (b.placed.map Placed.node) + b.textPool

def btotalSprites (b : BState) : Nat := countSprites (b.placed.map Placed.node) + b.spritePool

/-! ### Typewriter state (lines 68–130) -/

/-- The animated per-element display state: alpha and the two scale axes. -/
structure ElemVis where
  alpha : ℚ
  sx : ℚ
  sy : ℚ
deriving DecidableEq, Repr

/-- The typewriter-relevant state of a `MixedText`. -/
structure TWState where
  elements : List ElemVis
  originalScales : List (ℚ × ℚ)
  isTyping : Bool
  timelineActive : Bool
deriving DecidableEq, Repr

/-- The restore loop of `stopTypewrite` (lines 122–129): every element gets
alpha 1; an element with a recorded original scale gets it back. -/
def restore : List ElemVis → List (ℚ × ℚ) → List ElemVis
  | [], _ => []
  | e :: es, [] => { e with alpha := 1 } :: restore es []
  | e :: es, s :: ss => { e with alpha := 1, sx := s.1, sy := s.2 } :: restore es ss

/-- `stopTypewrite` (lines 114–130): kills the timeline, clears `isTyping`,
and restores the elements. -/
def stopTypewrite (st : TWState) : TWState :=
  { st with
    timelineActive := false
    isTyping := false
    elements := restore st.elements st.originalScales }

/-- `typewrite` (lines 68–111): stops any running animation first; with no
elements it invokes `onComplete` immediately (the returned flag) and returns;
otherwise it records the original scales, hides every element (alpha 0,
y-scale 0, x-scale kept) and starts the timeline. -/
def typewrite (st : TWState) : TWState × Bool :=
  let st1 := stopTypewrite st
  if st1.elements.isEmpty then (st1, true)
  else
    ({ st1 with
        isTyping := true
        originalScales := st1.elements.map fun e => (e.sx, e.sy)
        elements := st1.elements.map fun e => { e with alpha := 0, sy := 0 }
        timelineActive := true }, false)

/-- A concrete build context whose token key maps to the empty-string alias,
which IS present in the cache: JS truthiness (`alias && ...`) skips the cache
lookup for it. -/
def emptyAliasCtx : Ctx :=
  { textWidth := fun _ => 10
    lineHeight := 20
    images := fun k => if k = "happy" then some "" else none
    cache := fun al => if al = "" then some ⟨8, 8⟩ else none
    maxWidth := none
    gap := 6
    lineGap := 10
    placeholderTexture := none }

/-- A concrete well-behaved build context for witnesses. -/
def sampleCtx : Ctx :=
  { textWidth := fun s => if s = "   " then 3 else 5
    lineHeight := 20
    images := fun k => if k = "happy" then some "emoji_happy" else none
    cache := fun al => if al = "emoji_happy" then some ⟨16, 16⟩ else none
    maxWidth := some 100
    gap := 6
    lineGap := 10
    placeholderTexture := none }

/-- A concrete mid-line layout state close to the right margin, for witnesses. -/
def wrapState : BState :=
  { x := 99, y := 7, placed := [], textPool := 1, spritePool := 0,
    newTexts := 0, newSprites := 0 }

/-- A concrete build state with non-empty pools, for witnesses. -/
def pooledB : BState :=
  { x := 0, y := 0, placed := [], textPool := 2, spritePool := 3,
    newTexts := 0, newSprites := 0 }

end MixedText

namespace Seeds

/-! ## SeedsScene

Two implementations exist: `src/scenes/SeedsScene.ts` (namespace `Named`) and
the unnamed variant (namespace `P4`).  Positions and velocities are exact
rationals; `Math.sin`/`Math.cos` are oracles in the environment;
`Math.random()` draws are oracles indexed by the seed position in the array
(each seed consumes at most one draw per purpose per frame, in array order).
`Math.sqrt(d2) < r` is embedded as `d2 < r * r`, which is equivalent for
nonnegative reals. -/

/-- `SeedState` (both files, line 6). -/
inductive SeedState where
  | FALLING
  | FLOATING
  | SINKING
  | STACKED
  | EXPLODED
deriving DecidableEq, Repr

/-- A `Seed` sprite: position, velocity, state and float timer. -/
structure Seed where
  x : ℚ
  y : ℚ
  vx : ℚ
  vy : ℚ
  state : SeedState
  floatTimer : ℚ
deriving DecidableEq, Repr

/-- Frame environment: the magnet state, `this.time` (the value used this
frame, i.e. after `time += delta * 0.05`), the frame delta, the trig oracles
and the random draws.  `randFloat i` is the `Math.random()` for seed `i`'s
float timer; `randAngle i` the explosion angle (`Math.random() * PI * 2`) for
seed `i`; `randAngle2 i` the angle drawn in the named file's full-stack
restart block. -/
structure Env where
  magnetActive : Bool
  magnetX : ℚ
  magnetY : ℚ
  time : ℚ
  delta : ℚ
  sinO : ℚ → ℚ
  cosO : ℚ → ℚ
  randFloat : Nat → ℚ
  randAngle : Nat → ℚ
  randAngle2 : Nat → ℚ

/-- Indexed map, used for the `for` loops that pair each seed with its array
index. -/
def mapWithIdx {α β : Type} (f : Nat → α → β) : Nat → List α → List β
  | _, [] => []
  | i, a :: l => f i a :: mapWithIdx f (i + 1) l

/-- `SceneManager.width` = design width. -/
def sceneW : ℚ := (designWidth : ℚ)

/-- `SceneManager.height` = design height. -/
def sceneH : ℚ := (designHeight : ℚ)

/-- `this.WATER_LEVEL = h / 2` -/
def WATER_LEVEL : ℚ := sceneH / 2

/-- `this.GROUND_LEVEL = h - 20` -/
def GROUND_LEVEL : ℚ := sceneH - 20

/-- The condition under which the magnet moves a seed this frame: magnet
active, seed floating/sinking/stacked, and within 250px (squared distances). -/
def magnetAttracts (env : Env) (s : Seed) : Bool :=
  env.magnetActive ∧
    (s.state = SeedState.FLOATING ∨ s.state = SeedState.SINKING ∨
      s.state = SeedState.STACKED) ∧
    (env.magnetX - s.x) * (env.magnetX - s.x) +
      (env.magnetY - s.y) * (env.magnetY - s.y) < 250 * 250

/-- A seed gathered this frame: attracted and within 30px (pre-move). -/
def magnetGathers (env : Env) (s : Seed) : Bool :=
  magnetAttracts env s ∧
    (env.magnetX - s.x) * (env.magnetX - s.x) +
      (env.magnetY - s.y) * (env.magnetY - s.y) < 30 * 30

namespace Named

/-- Magnet attraction (SeedsScene.ts lines 266–281): a 5% pull toward the
magnet within 250px, forcing the state to SINKING; the gathered flag uses the
pre-move distance against 30px. -/
def magnetPhase (env : Env) (s : Seed) : Seed × Bool :=
  if env.magnetActive ∧
      (s.state = SeedState.FLOATING ∨ s.state = SeedState.SINKING ∨
        s.state = SeedState.STACKED) then
    let dx := env.magnetX - s.x
    let dy := env.magnetY - s.y
    let d2 := dx * dx + dy * dy
    if d2 < 250 * 250 then
      ({ s with
          x := s.x + dx * (1/20)
          y := s.y + dy * (1/20)
          state := SeedState.SINKING },
        decide (d2 < 30 * 30))
    else (s, false)
  else (s, false)

/-- The stacking search (lines 307–317): the first STACKED seed (in array
order, the seed itself excluded) within 15px horizontally and 20px
vertically; returns its y. -/
def findStack (s : Seed) : List Seed → Option ℚ
  | [] => none
  | o :: rest =>
    if o.state = SeedState.STACKED ∧ |s.x - o.x| < 15 ∧ |s.y - o.y| < 20 then
      some o.y
    else findStack s rest

/-- The SINKING branch (lines 300–318): fall by `vy`, clamp to the ground
(becoming STACKED), then settle 18px above the first nearby STACKED seed. -/
def sinkPhysics (others : List Seed) (s : Seed) : Seed :=
  let s1 := { s with y := s.y + s.vy }
  let s2 :=
    if s1.y > GROUND_LEVEL then { s1 with y := GROUND_LEVEL, state := SeedState.STACKED }
    else s1
  match findStack s2 others with
  | some oy => { s2 with y := oy - 18, state := SeedState.STACKED }
  | none => s2

/-- The physics state machine (lines 284–318), applied after the magnet. -/
def physicsPhase (env : Env) (i : Nat) (others : List Seed) (s : Seed) : Seed :=
  if s.state = SeedState.FALLING then
    let s1 := { s with y := s.y + s.vy }
    if s1.y > WATER_LEVEL then
      { s1 with
        state := SeedState.FLOATING
        vy := 0
        floatTimer := 100 + env.randFloat i * 200 }
    else s1
  else if s.state = SeedState.FLOATING then
    let s1 := { s with
                y := WATER_LEVEL + env.sinO (env.time + s.x * (1/10)) * 5
                floatTimer := s.floatTimer - env.delta }
    if s1.floatTimer ≤ 0 then { s1 with state := SeedState.SINKING, vy := 1 }
    else s1
  else if s.state = SeedState.SINKING then
    sinkPhysics others s
  else s

/-- One iteration of the `for (const s of this.seeds)` loop (lines 257–319):
EXPLODED seeds just drift; otherwise the magnet acts and then the physics
machine runs on the (possibly magnet-modified) seed.  `others` is the rest of
the array as the stacking search sees it. -/
def stepSeed (env : Env) (i : Nat) (others : List Seed) (s : Seed) : Seed × Bool :=
  if s.state = SeedState.EXPLODED then
    ({ s with x := s.x + s.vx, y := s.y + s.vy }, false)
  else
    let p := magnetPhase env s
    (physicsPhase env i others p.1, p.2)

/-- The whole per-seed loop: seeds before the cursor are already updated,
seeds after it are not, and the stacking search sees both. -/
def runSeeds (env : Env) (done : List Seed) (i : Nat) : List Seed → List (Seed × Bool)
  | [] => []
  | s :: todo =>
    let p := stepSeed env i (done ++ todo) s
    p :: runSeeds env (done ++ [p.1]) (i + 1) todo

/-- Explosion of a gathered seed (lines 325–333): EXPLODED with velocity
`(cos θ, sin θ) * 15` for the drawn angle θ. -/
def explodeSeed (env : Env) (i : Nat) (s : Seed) : Seed :=
  { s with
    state := SeedState.EXPLODED
    vx := env.cosO (env.randAngle i) * 15
    vy := env.sinO (env.randAngle i) * 15 }

/-- The explosion block (lines 322–335) applied to the loop output: with 10 or
more gathered seeds every gathered seed explodes and the magnet deactivates;
otherwise nothing changes. -/
def explodePhase (env : Env) (stepped : List (Seed × Bool)) : List Seed × Bool :=
  if 10 ≤ (stepped.filter fun p => p.2).length then
    (mapWithIdx (fun j p => if p.2 then explodeSeed env j p.1 else p.1) 0 stepped, false)
  else
    (stepped.map fun p => p.1, env.magnetActive)

/-- Lines 250–335 of `SeedsScene.update`: the per-seed loop followed by the
explosion check.  Returns the seeds and the resulting magnet flag. -/
def updateCore (env : Env) (seeds : List Seed) : List Seed × Bool :=
  explodePhase env (runSeeds env [] 0 seeds)

/-- The recycling block (lines 337–344): seeds out of the play area are
removed (released to the pool); returns survivors and the released count. -/
def recycle (seeds : List Seed) : List Seed × Nat :=
  let kept := seeds.filter fun s =>
    ¬ (s.y > sceneH + 200 ∨ s.x < -200 ∨ s.x > sceneW + 200)
  (kept, seeds.length - kept.length)

/-- `this.FULL_STACK_THRESHOLD = 30` -/
def FULL_STACK_THRESHOLD : Nat := 30

/-- The restart explosion of a remaining seed (lines 363–374). -/
def explodeSeed2 (env : Env) (i : Nat) (s : Seed) : Seed :=
  { s with
    state := SeedState.EXPLODED
    vx := env.cosO (env.randAngle2 i) * 15
    vy := env.sinO (env.randAngle2 i) * 15 }

/-- The mutable scene fields the named `update` touches besides the seeds. -/
structure NamedState where
  seeds : List Seed
  magnetActive : Bool
  isRestarting : Bool
  spawnActive : Bool
  restartScheduled : Bool
  seedPool : Nat
deriving Repr

/-- The full-stack restart block (lines 346–380): with 30 or more STACKED
seeds and no restart pending, the magnet and spawner stop, every
non-EXPLODED seed explodes and a restart is scheduled. -/
def restartPhase (env : Env) (st : NamedState) : NamedState :=
  let stackedCount := (st.seeds.filter fun s => s.state = SeedState.STACKED).length
  if FULL_STACK_THRESHOLD ≤ stackedCount ∧ ¬ st.isRestarting then
    { st with
      isRestarting := true
      magnetActive := false
      spawnActive := false
      seeds := mapWithIdx (fun i s =>
        if s.state = SeedState.EXPLODED then s else explodeSeed2 env i s) 0 st.seeds
      restartScheduled := true }
  else st

/-- The whole named `SeedsScene.update` (lines 250–381): the shared core, then
off-screen recycling, then the full-stack restart check. -/
def update (env : Env) (st : NamedState) : NamedState :=
  let env1 := { env with magnetActive := st.magnetActive }
  let core := updateCore env1 st.seeds
  let rec1 := recycle core.1
  restartPhase env1
    { st with
      seeds := rec1.1
      magnetActive := core.2
      seedPool := st.seedPool + rec1.2 }

end Named

namespace P4

/-- Magnet attraction (unnamed variant, lines 197–212). -/
def magnetPhase (env : Env) (s : Seed) : Seed × Bool :=
  if env.magnetActive ∧
      (s.state = SeedState.FLOATING ∨ s.state = SeedState.SINKING ∨
        s.state = SeedState.STACKED) then
    let dx := env.magnetX - s.x
    let dy := env.magnetY - s.y
    let d2 := dx * dx + dy * dy
    if d2 < 250 * 250 then
      ({ s with
          x := s.x + dx * (1/20)
          y := s.y + dy * (1/20)
          state := SeedState.SINKING },
        decide (d2 < 30 * 30))
    else (s, false)
  else (s, false)

/-- The stacking search (lines 238–248). -/
def findStack (s : Seed) : List Seed → Option ℚ
  | [] => none
  | o :: rest =>
    if o.state = SeedState.STACKED ∧ |s.x - o.x| < 15 ∧ |s.y - o.y| < 20 then
      some o.y
    else findStack s rest

/-- The SINKING branch (lines 231–249). -/
def sinkPhysics (others : List Seed) (s : Seed) : Seed :=
  let s1 := { s with y := s.y + s.vy }
  let s2 :=
    if s1.y > GROUND_LEVEL then { s1 with y := GROUND_LEVEL, state := SeedState.STACKED }
    else s1
  match findStack s2 others with
  | some oy => { s2 with y := oy - 18, state := SeedState.STACKED }
  | none => s2

/-- The physics state machine (lines 214–249). -/
def physicsPhase (env : Env) (i : Nat) (others : List Seed) (s : Seed) : Seed :=
  if s.state = SeedState.FALLING then
    let s1 := { s with y := s.y + s.vy }
    if s1.y > WATER_LEVEL then
      { s1 with
        state := SeedState.FLOATING
        vy := 0
        floatTimer := 100 + env.randFloat i * 200 }
    else s1
  else if s.state = SeedState.FLOATING then
    let s1 := { s with
                y := WATER_LEVEL + env.sinO (env.time + s.x * (1/10)) * 5
                floatTimer := s.floatTimer - env.delta }
    if s1.floatTimer ≤ 0 then { s1 with state := SeedState.SINKING, vy := 1 }
    else s1
  else if s.state = SeedState.SINKING then
    sinkPhysics others s
  else s

/-- One iteration of the per-seed loop (lines 188–250). -/
def stepSeed (env : Env) (i : Nat) (others : List Seed) (s : Seed) : Seed × Bool :=
  if s.state = SeedState.EXPLODED then
    ({ s with x := s.x + s.vx, y := s.y + s.vy }, false)
  else
    let p := magnetPhase env s
    (physicsPhase env i others p.1, p.2)

/-- The whole per-seed loop. -/
def runSeeds (env : Env) (done : List Seed) (i : Nat) : List Seed → List (Seed × Bool)
  | [] => []
  | s :: todo =>
    let p := stepSeed env i (done ++ todo) s
    p :: runSeeds env (done ++ [p.1]) (i + 1) todo

/-- Explosion of a gathered seed (lines 257–266).  The sound-rate random draw
(line 255) affects no seed. -/
def explodeSeed (env : Env) (i : Nat) (s : Seed) : Seed :=
  { s with
    state := SeedState.EXPLODED
    vx := env.cosO (env.randAngle i) * 15
    vy := env.sinO (env.randAngle i) * 15 }

/-- The explosion block (lines 253–268). -/
def explodePhase (env : Env) (stepped : List (Seed × Bool)) : List Seed × Bool :=
  if 10 ≤ (stepped.filter fun p => p.2).length then
    (mapWithIdx (fun j p => if p.2 then explodeSeed env j p.1 else p.1) 0 stepped, false)
  else
    (stepped.map fun p => p.1, env.magnetActive)

/-- The whole unnamed `SeedsScene.update` (lines 181–269): the per-seed loop
followed by the explosion check — and nothing else. -/
def update (env : Env) (seeds : List Seed) : List Seed × Bool :=
  explodePhase env (runSeeds env [] 0 seeds)

end P4

/-- Single-frame transition closure of the claimed transitions: the magnet may
turn a FLOATING or STACKED seed SINKING and the same frame's SINKING physics
may stack it, and a gathered seed may explode; FALLING seeds only fall or
start floating, and nothing ever returns to FALLING or FLOATING. -/
def stateTransOk : SeedState → SeedState → Bool
  | SeedState.FALLING, SeedState.FALLING => true
  | SeedState.FALLING, SeedState.FLOATING => true
  | SeedState.FLOATING, SeedState.FLOATING => true
  | SeedState.FLOATING, SeedState.SINKING => true
  | SeedState.FLOATING, SeedState.STACKED => true
  | SeedState.FLOATING, SeedState.EXPLODED => true
  | SeedState.SINKING, SeedState.SINKING => true
  | SeedState.SINKING, SeedState.STACKED => true
  | SeedState.SINKING, SeedState.EXPLODED => true
  | SeedState.STACKED, SeedState.STACKED => true
  | SeedState.STACKED, SeedState.SINKING => true
  | SeedState.STACKED, SeedState.EXPLODED => true
  | SeedState.EXPLODED, SeedState.EXPLODED => true
  | _, _ => false

/-- A concrete frame environment for witnesses: magnet off, trivial oracles. -/
def quietEnv : Env :=
  { magnetActive := false, magnetX := 0, magnetY := 0, time := 0, delta := 1,
    sinO := fun _ => 0, cosO := fun _ => 1,
    randFloat := fun _ => 0, randAngle := fun _ => 0, randAngle2 := fun _ => 0 }

/-- Concrete seeds for witnesses. -/
def fallSeed : Seed := ⟨0, 0, 0, 5, SeedState.FALLING, 0⟩

def floatSeed : Seed := ⟨0, 640, 0, 0, SeedState.FLOATING, 50⟩

def sinkSeed : Seed := ⟨0, 1008, 0, 2, SeedState.SINKING, 0⟩

def stackSeed : Seed := ⟨0, 1000, 0, 0, SeedState.STACKED, 0⟩

def gatherPair : Seed × Bool := (⟨0, 640, 0, 0, SeedState.SINKING, 0⟩, true)

end Seeds

end PixiExamples

/-! # Theorems -/

namespace PixiExamples

namespace SceneManager

theorem sublist_skip {α : Type} (x : List α) {l r : List α} (h : l.Sublist r) :
    l.Sublist (x ++ r) :=
  h.trans (List.sublist_append_right x r)

/-- Explicit decomposition of the trace when a bundle id is supplied. -/
theorem changeSceneTrace_some (id : String) (hasCurrent : Bool)
    (pcs : List ℚ) (ok : Bool) (elapsed : Nat) (hasInit : Bool) :
    changeSceneTrace (some id) hasCurrent pcs ok elapsed hasInit =
      [Event.setProgress 0, Event.showLoading]
      ++ (if hasCurrent then
            [Event.removeCurrentScene, Event.cleanupCurrent, Event.destroyCurrent]
          else [])
      ++ (Event.loadStart id :: pcs.map Event.setProgress
          ++ (if ok then [Event.loadSuccess id]
              else [Event.loadFailed id, Event.logError])
          ++ [Event.setProgress 1] ++ waitPhase elapsed)
      ++ ([Event.createScene] ++ (if hasInit then [Event.initScene] else []))
      ++ [Event.removeLoading, Event.addNewScene,
          Event.resizeNew designWidth designHeight] := by
  cases ok <;>
    simp [changeSceneTrace, changeScene, loadBundle, Except.toOption]

/-- Explicit decomposition of the trace when no bundle id is supplied. -/
theorem changeSceneTrace_none (hasCurrent : Bool)
    (pcs : List ℚ) (ok : Bool) (elapsed : Nat) (hasInit : Bool) :
    changeSceneTrace none hasCurrent pcs ok elapsed hasInit =
      (if hasCurrent then
         [Event.removeCurrentScene, Event.cleanupCurrent, Event.destroyCurrent]
       else [])
      ++ ([Event.createScene] ++ (if hasInit then [Event.initScene] else []))
      ++ [Event.addNewScene, Event.resizeNew designWidth designHeight] := by
  simp [changeSceneTrace, changeScene, Except.toOption]

/-- C1: In every `changeScene` call with a bundle id, the effects occur in
order: progress reset to 0 and the loading scene shown first; then the current
scene (when present) removed, cleaned up and destroyed; then the bundle loaded
with every progress callback forwarded, the load settling before progress is
forced to 1; then the scene created and (when present) its `init` awaited;
and only at the very end the loading scene removed, the new scene added and
resized to the design size.  With no bundle id, the loading scene is never
shown and no bundle is loaded. -/
theorem changeScene_sequencing (id : String) (hasCurrent : Bool) (pcs : List ℚ)
    (ok : Bool) (elapsed : Nat) (hasInit : Bool) :
    (changeSceneTrace (some id) hasCurrent pcs ok elapsed hasInit).take 2 =
        [Event.setProgress 0, Event.showLoading] ∧
    ([Event.setProgress 0, Event.showLoading]
      ++ (if hasCurrent then
            [Event.removeCurrentScene, Event.cleanupCurrent, Event.destroyCurrent]
          else [])
      ++ Event.loadStart id :: pcs.map Event.setProgress
      ++ [(if ok then Event.loadSuccess id else Event.loadFailed id),
          Event.setProgress 1, Event.createScene]
      ++ (if hasInit then [Event.initScene] else [])
      ++ [Event.removeLoading, Event.addNewScene,
          Event.resizeNew designWidth designHeight]).Sublist
        (changeSceneTrace (some id) hasCurrent pcs ok elapsed hasInit) ∧
    (∃ l, changeSceneTrace (some id) hasCurrent pcs ok elapsed hasInit =
        l ++ [Event.removeLoading, Event.addNewScene,
              Event.resizeNew designWidth designHeight]) ∧
    (hasInit = false →
      Event.initScene ∉ changeSceneTrace (some id) hasCurrent pcs ok elapsed hasInit) ∧
    Event.showLoading ∉ changeSceneTrace none hasCurrent pcs ok elapsed hasInit ∧
    (∀ i, Event.loadStart i ∉ changeSceneTrace none hasCurrent pcs ok elapsed hasInit) := by
  refine ⟨?_, ?_, ?_, ?_, ?_, ?_⟩
  · rw [changeSceneTrace_some]; rfl
  · rw [changeSceneTrace_some]
    simp only [List.append_assoc, List.cons_append, List.nil_append]
    refine List.Sublist.cons₂ _ (List.Sublist.cons₂ _ ?_)
    refine List.Sublist.append (List.Sublist.refl _) ?_
    refine List.Sublist.cons₂ _ ?_
    refine List.Sublist.append (List.Sublist.refl _) ?_
    cases ok
    · refine List.Sublist.cons₂ _ (List.Sublist.cons _ ?_)
      refine List.Sublist.cons₂ _ (sublist_skip _ ?_)
      exact List.Sublist.cons₂ _ (List.Sublist.append (List.Sublist.refl _)
        (List.Sublist.refl _))
    · refine List.Sublist.cons₂ _ ?_
      refine List.Sublist.cons₂ _ (sublist_skip _ ?_)
      exact List.Sublist.cons₂ _ (List.Sublist.append (List.Sublist.refl _)
        (List.Sublist.refl _))
  · exact ⟨_, changeSceneTrace_some id hasCurrent pcs ok elapsed hasInit⟩
  · intro h
    cases ok <;>
      (rw [changeSceneTrace_some]; simp [h, waitPhase])
  · rw [changeSceneTrace_none]; simp
  · intro i; rw [changeSceneTrace_none]; simp

/-- C1 witness at a concrete call. -/
theorem changeScene_sequencing_witness :
    (changeSceneTrace (some "game") true [(1 : ℚ)/2] true 100 false).take 2 =
      [Event.setProgress 0, Event.showLoading] ∧
    Event.initScene ∉ changeSceneTrace (some "game") true [(1 : ℚ)/2] true 100 false := by
  have h := changeScene_sequencing "game" true [(1 : ℚ)/2] true 100 false
  exact ⟨h.1, h.2.2.2.1 rfl⟩

/-- C2: with a bundle id, when the load settles with less than
`minDisplayTime` (500 ms) elapsed since the start of the call, a delay of
exactly the remaining time is awaited after progress reaches 1 and before the
loading scene is removed; when at least `minDisplayTime` has elapsed no delay
is awaited; and in all cases elapsed time plus the awaited delay is at least
`minDisplayTime`, so the loading scene stays for at least 500 ms from the
start of the call. -/
theorem changeScene_minDisplayTime (id : String) (hasCurrent : Bool) (pcs : List ℚ)
    (ok : Bool) (elapsed : Nat) (hasInit : Bool) :
    (elapsed < minDisplayTime →
      [Event.setProgress 1, Event.waitDelay (minDisplayTime - elapsed),
       Event.removeLoading].Sublist
        (changeSceneTrace (some id) hasCurrent pcs ok elapsed hasInit)) ∧
    (minDisplayTime ≤ elapsed →
      ∀ d, Event.waitDelay d ∉
        changeSceneTrace (some id) hasCurrent pcs ok elapsed hasInit) ∧
    minDisplayTime ≤ elapsed + waitTotal elapsed := by
  refine ⟨?_, ?_, ?_⟩
  · intro h
    rw [changeSceneTrace_some]
    simp only [List.append_assoc, List.cons_append, List.nil_append]
    refine List.Sublist.cons _ (List.Sublist.cons _ ?_)
    refine sublist_skip _ ?_
    refine List.Sublist.cons _ ?_
    refine sublist_skip _ ?_
    refine sublist_skip _ ?_
    refine List.Sublist.cons₂ _ ?_
    rw [waitPhase, if_pos h]
    refine List.Sublist.cons₂ _ (List.Sublist.cons _ ?_)
    refine sublist_skip _ ?_
    exact List.Sublist.cons₂ _ (List.nil_sublist _)
  · intro h d
    cases ok <;>
      (rw [changeSceneTrace_some]; simp [waitPhase, Nat.not_lt.mpr h])
  · unfold waitTotal waitPhase
    split <;> simp <;> omega

/-- C2 witness at a concrete call. -/
theorem changeScene_minDisplayTime_witness :
    [Event.setProgress 1, Event.waitDelay (minDisplayTime - 100),
     Event.removeLoading].Sublist
      (changeSceneTrace (some "game") true [(1 : ℚ)/2] true 100 true) ∧
    minDisplayTime ≤ 100 + waitTotal 100 := by
  have h := changeScene_minDisplayTime "game" true [(1 : ℚ)/2] true 100 true
  exact ⟨h.1 (by decide), h.2.2⟩

/-- C9: when the bundle load rejects, the rejection is caught: the call still
resolves (never rejects), the error is logged, progress is still forced to 1,
the minimum display time is still honored, the old scene is still torn down,
and the new scene is still created, initialized, added and resized, with the
loading scene removed before the swap. -/
theorem changeScene_bundleFailure (id : String) (hasCurrent : Bool) (pcs : List ℚ)
    (elapsed : Nat) (hasInit : Bool) :
    ∃ t, changeScene (some id) hasCurrent pcs false elapsed hasInit = Except.ok t ∧
      [Event.loadFailed id, Event.logError, Event.setProgress 1].Sublist t ∧
      (elapsed < minDisplayTime → Event.waitDelay (minDisplayTime - elapsed) ∈ t) ∧
      (hasCurrent = true →
        [Event.removeCurrentScene, Event.cleanupCurrent, Event.destroyCurrent].Sublist t) ∧
      Event.createScene ∈ t ∧
      (hasInit = true → Event.initScene ∈ t) ∧
      ∃ l, t = l ++ [Event.removeLoading, Event.addNewScene,
                     Event.resizeNew designWidth designHeight] := by
  refine ⟨changeSceneTrace (some id) hasCurrent pcs false elapsed hasInit, rfl, ?_, ?_, ?_, ?_, ?_, ?_⟩
  · rw [changeSceneTrace_some]
    simp only [List.append_assoc, List.cons_append, List.nil_append]
    refine List.Sublist.cons _ (List.Sublist.cons _ ?_)
    refine sublist_skip _ ?_
    refine List.Sublist.cons _ ?_
    refine sublist_skip _ ?_
    simp only [if_neg Bool.false_ne_true]
    refine List.Sublist.cons₂ _ (List.Sublist.cons₂ _ ?_)
    exact List.Sublist.cons₂ _ (List.nil_sublist _)
  · intro h
    rw [changeSceneTrace_some]
    simp [waitPhase, h]
  · intro h
    rw [changeSceneTrace_some, h]
    simp only [List.append_assoc, List.cons_append, List.nil_append, if_pos]
    refine List.Sublist.cons _ (List.Sublist.cons _ ?_)
    refine List.Sublist.cons₂ _ (List.Sublist.cons₂ _ ?_)
    exact List.Sublist.cons₂ _ (List.nil_sublist _)
  · rw [changeSceneTrace_some]; simp
  · intro h; rw [changeSceneTrace_some, h]; simp
  · exact ⟨_, changeSceneTrace_some id hasCurrent pcs false elapsed hasInit⟩

/-- C9 witness at a concrete call. -/
theorem changeScene_bundleFailure_witness :
    ∃ t, changeScene (some "game") true [(1 : ℚ)/2] false 100 true = Except.ok t ∧
      Event.createScene ∈ t ∧ Event.initScene ∈ t := by
  obtain ⟨t, h1, _, _, _, h5, h6, _⟩ :=
    changeScene_bundleFailure "game" true [(1 : ℚ)/2] 100 true
  exact ⟨t, h1, h5, h6 rfl⟩

end SceneManager

namespace AceOfShadows

theorem moveTopCard_length (st : SceneState) :
    (moveTopCard st).stack1.length + (moveTopCard st).stack2.length =
      st.stack1.length + st.stack2.length := by
  unfold moveTopCard
  cases h : st.stack1.getLast? with
  | none => rfl
  | some card =>
    have hne : st.stack1 ≠ [] := by
      intro he; rw [he] at h; simp at h
    have h1 : 0 < st.stack1.length := List.length_pos.mpr hne
    simp [List.length_dropLast]
    omega

/-- C8: `init` creates exactly 144 cards, all of them in `stack1` and none in
`stack2`; `moveTopCard` pops the top of `stack1` and pushes it onto the top of
`stack2`, tweening it to the stack-2 base offset by
`(index * 0.3, -(index * 1.5))`; every move preserves
`stack1.length + stack2.length`, which therefore stays 144 after `init`; and
`moveTopCard` on an empty `stack1` changes nothing. -/
theorem cardStacks_spec (frameCount : Nat) (st : SceneState) :
    (sceneInit frameCount).cards.length = 144 ∧
    (sceneInit frameCount).stack1 = (sceneInit frameCount).cards ∧
    (sceneInit frameCount).stack2 = [] ∧
    (moveTopCard st).stack1.length + (moveTopCard st).stack2.length =
      st.stack1.length + st.stack2.length ∧
    (∀ card, st.stack1.getLast? = some card →
      (moveTopCard st).stack1 = st.stack1.dropLast ∧
      (moveTopCard st).stack2 = st.stack2 ++
        [{ card with
            x := endPosX + (st.stack2.length : ℚ) * offsetX,
            y := endPosY - (st.stack2.length : ℚ) * offsetY }]) ∧
    (st.stack1 = [] → moveTopCard st = st) ∧
    ∀ n, (moveTopCard^[n] (sceneInit frameCount)).stack1.length +
         (moveTopCard^[n] (sceneInit frameCount)).stack2.length = 144 := by
  refine ⟨by simp [sceneInit], by simp [sceneInit], by simp [sceneInit],
    moveTopCard_length st, ?_, ?_, ?_⟩
  · intro card h
    unfold moveTopCard
    rw [h]
    exact ⟨rfl, rfl⟩
  · intro h
    unfold moveTopCard
    rw [h]
    rfl
  · intro n
    induction n with
    | zero => simp [sceneInit]
    | succ k ih =>
      rw [Function.iterate_succ_apply', moveTopCard_length]
      exact ih

/-- C8 witness at concrete states. -/
theorem cardStacks_spec_witness :
    (moveTopCard ⟨[], [⟨0, 0, 0⟩], []⟩).stack1 = [] ∧
    (moveTopCard ⟨[], [⟨0, 0, 0⟩], []⟩).stack2 = [⟨0, endPosX, endPosY⟩] ∧
    moveTopCard ⟨[], [], []⟩ = ⟨[], [], []⟩ ∧
    (moveTopCard^[3] (sceneInit 5)).stack1.length +
      (moveTopCard^[3] (sceneInit 5)).stack2.length = 144 := by
  have h := cardStacks_spec 5 ⟨[], [⟨0, 0, 0⟩], []⟩
  have h2 := cardStacks_spec 5 ⟨[], [], []⟩
  obtain ⟨hs1, hs2⟩ := h.2.2.2.2.1 ⟨0, 0, 0⟩ rfl
  refine ⟨by simpa using hs1, by simpa using hs2, h2.2.2.2.2.2.1 rfl, h.2.2.2.2.2.2 3⟩

end AceOfShadows

namespace MixedText

theorem getTextFromPool_layout (st : BState) :
    (getTextFromPool st).1.placed = st.placed ∧ (getTextFromPool st).1.x = st.x ∧
      (getTextFromPool st).1.y = st.y := by
  unfold getTextFromPool
  split <;> exact ⟨rfl, rfl, rfl⟩

theorem getSpriteFromPool_layout (st : BState) :
    (getSpriteFromPool st).1.placed = st.placed ∧ (getSpriteFromPool st).1.x = st.x ∧
      (getSpriteFromPool st).1.y = st.y := by
  unfold getSpriteFromPool
  split <;> exact ⟨rfl, rfl, rfl⟩

/-- What `placeNode` appends, explicitly. -/
theorem placeNode_placed (ctx : Ctx) (st : BState) (node : Node) :
    (placeNode ctx st node).placed = st.placed ++
      [⟨node,
        if 0 < st.x ∧ overflows ctx st.x (nodeWidth ctx node) then 0 else st.x,
        if 0 < st.x ∧ overflows ctx st.x (nodeWidth ctx node) then
          st.y + ctx.lineHeight + ctx.lineGap
        else st.y,
        nodeWidth ctx node⟩] := by
  by_cases hc : 0 < st.x ∧ overflows ctx st.x (nodeWidth ctx node) = true
  · simp [placeNode, hc]
  · simp [placeNode, hc]

/-- The token loop places exactly the node `renderToken` produces. -/
theorem stepItem_tok_placed (ctx : Ctx) (st : BState) (part : String) :
    (stepItem ctx st (Item.tok part)).placed = st.placed ++
      [⟨renderToken ctx part,
        if 0 < st.x ∧ overflows ctx st.x (nodeWidth ctx (renderToken ctx part)) then 0
        else st.x,
        if 0 < st.x ∧ overflows ctx st.x (nodeWidth ctx (renderToken ctx part)) then
          st.y + ctx.lineHeight + ctx.lineGap
        else st.y,
        nodeWidth ctx (renderToken ctx part)⟩] := by
  cases h : renderToken ctx part with
  | sprite tex scale =>
    simp only [stepItem, h]
    rw [placeNode_placed, (getSpriteFromPool_layout st).1,
      (getSpriteFromPool_layout st).2.1, (getSpriteFromPool_layout st).2.2]
  | text s =>
    simp only [stepItem, h]
    rw [placeNode_placed, (getTextFromPool_layout st).1,
      (getTextFromPool_layout st).2.1, (getTextFromPool_layout st).2.2]

/-- C4 counterexample: the token key maps through `images` to the empty-string
alias, which is present in the `Assets` cache, yet `build` renders the raw
token text rather than a sprite: the JS truthiness test `alias && ...` skips
an empty alias. -/
theorem renderToken_emptyAlias_counterexample :
    emptyAliasCtx.images "happy" = some "" ∧
    (emptyAliasCtx.cache "").isSome = true ∧
    renderToken emptyAliasCtx "\x7bhappy\x7d" = Node.text "\x7bhappy\x7d" := by
  refine ⟨rfl, rfl, ?_⟩
  rfl

/-- C4 (amended: the key must map to a NON-EMPTY alias present in the cache):
such a token is rendered as a sprite scaled uniformly by
`(0.9 * lineHeight) / max(1, texture.height)`; when no cached texture applies,
the placeholder texture is used if provided; when neither exists the raw token
text including braces becomes a `Text` element; and the token loop places
exactly the node `renderToken` produces. -/
theorem renderToken_spec (ctx : Ctx) (st : BState) (part : String) :
    (∀ al tex, ctx.images (tokenKey part) = some al → al ≠ "" →
        ctx.cache al = some tex →
        renderToken ctx part =
          Node.sprite tex (ctx.lineHeight * (9/10) / max 1 tex.height)) ∧
    (∀ ph, tokenTexture ctx part = none → ctx.placeholderTexture = some ph →
        renderToken ctx part =
          Node.sprite ph (ctx.lineHeight * (9/10) / max 1 ph.height)) ∧
    (tokenTexture ctx part = none → ctx.placeholderTexture = none →
        renderToken ctx part = Node.text part) ∧
    (∃ pl, (stepItem ctx st (Item.tok part)).placed = st.placed ++ [pl] ∧
        pl.node = renderToken ctx part) := by
  refine ⟨?_, ?_, ?_, ?_⟩
  · intro al tex hal hne htex
    simp [renderToken, finalTexture, tokenTexture, hal, hne, htex]
  · intro ph htt hph
    simp [renderToken, finalTexture, htt, hph]
  · intro htt hph
    simp [renderToken, finalTexture, htt, hph]
  · exact ⟨_, stepItem_tok_placed ctx st part, rfl⟩

/-- C4 witness: a populated cache entry at a concrete token. -/
theorem renderToken_spec_witness :
    renderToken sampleCtx "\x7bhappy\x7d" =
      Node.sprite ⟨16, 16⟩ (sampleCtx.lineHeight * (9/10) / max 1 16) := by
  exact (renderToken_spec sampleCtx (initialBState 0 0) "\x7bhappy\x7d").1
    "emoji_happy" ⟨16, 16⟩ rfl (by decide) rfl

/-- Every element `placeNode` leaves placed is an old one or fits the margin
whenever it sits at a non-zero x. -/
theorem placeNode_placed_sub (ctx : Ctx) (m : ℚ) (hm : ctx.maxWidth = some m)
    (st : BState) (node : Node) :
    ∀ p ∈ (placeNode ctx st node).placed,
      p ∈ st.placed ∨ (0 < p.x → p.x + p.width ≤ m) := by
  intro p hp
  rw [placeNode_placed] at hp
  rcases List.mem_append.mp hp with h | h
  · exact Or.inl h
  · right
    simp only [List.mem_singleton] at h
    subst h
    by_cases hc : 0 < st.x ∧ overflows ctx st.x (nodeWidth ctx node) = true
    · simp [hc]
    · simp only [if_neg hc]
      intro h0
      have hovf : overflows ctx st.x (nodeWidth ctx node) ≠ true := fun hb => hc ⟨h0, hb⟩
      simp only [overflows, hm, ne_eq, decide_eq_true_eq] at hovf
      exact le_of_not_lt hovf

theorem stepItem_placed_sub (ctx : Ctx) (m : ℚ) (hm : ctx.maxWidth = some m)
    (st : BState) (it : Item) :
    ∀ p ∈ (stepItem ctx st it).placed,
      p ∈ st.placed ∨ (0 < p.x → p.x + p.width ≤ m) := by
  intro p hp
  cases it with
  | tok part =>
    cases hR : renderToken ctx part with
    | sprite tex scale =>
      simp only [stepItem, hR] at hp
      rcases placeNode_placed_sub ctx m hm _ _ p hp with h | h
      · exact Or.inl (by rwa [(getSpriteFromPool_layout st).1] at h)
      · exact Or.inr h
    | text s =>
      simp only [stepItem, hR] at hp
      rcases placeNode_placed_sub ctx m hm _ _ p hp with h | h
      · exact Or.inl (by rwa [(getTextFromPool_layout st).1] at h)
      · exact Or.inr h
  | chunk s =>
    simp only [stepItem] at hp
    split at hp
    · split at hp
      · exact Or.inl (by rwa [(getTextFromPool_layout st).1] at hp)
      · rcases placeNode_placed_sub ctx m hm _ _ p hp with h | h
        · exact Or.inl (by rwa [(getTextFromPool_layout st).1] at h)
        · exact Or.inr h
    · rcases placeNode_placed_sub ctx m hm _ _ p hp with h | h
      · exact Or.inl (by rwa [(getTextFromPool_layout st).1] at h)
      · exact Or.inr h

/-- The wrap invariant is preserved through the whole layout loop. -/
theorem layout_placed_fits (ctx : Ctx) (m : ℚ) (hm : ctx.maxWidth = some m)
    (items : List Item) (st0 : BState)
    (h0 : ∀ p ∈ st0.placed, 0 < p.x → p.x + p.width ≤ m) :
    ∀ p ∈ (layout ctx items st0).placed, 0 < p.x → p.x + p.width ≤ m := by
  induction items generalizing st0 with
  | nil => exact h0
  | cons it rest ih =>
    refine ih (stepItem ctx st0 it) ?_
    intro p hp
    rcases stepItem_placed_sub ctx m hm st0 it p hp with h | h
    · exact h0 p h
    · exact h

/-- C3: with a finite `maxWidth`: every element placed at a non-zero x has its
right edge within `maxWidth`; a node that would overflow at a non-zero x is
placed at the start of a new line, the y cursor advanced by
`lineHeight + lineGap`; an overflowing whitespace-only chunk is dropped back
onto the text pool — nothing placed, cursor and line unchanged; and an item
arriving with the cursor at the line start is always placed there, whatever
its width. -/
theorem build_wrap_spec (ctx : Ctx) (m : ℚ) (hm : ctx.maxWidth = some m)
    (items : List Item) (tp sp : Nat) (st st2 : BState) (node : Node)
    (s : String) (it : Item) :
    (∀ p ∈ (layout ctx items (initialBState tp sp)).placed,
        0 < p.x → p.x + p.width ≤ m) ∧
    (0 < st.x → overflows ctx st.x (nodeWidth ctx node) = true →
        (placeNode ctx st node).placed = st.placed ++
          [⟨node, 0, st.y + ctx.lineHeight + ctx.lineGap, nodeWidth ctx node⟩]) ∧
    (0 < st.x → overflows ctx st.x (ctx.textWidth s) = true →
      isWhitespaceOnly s = true →
        (stepItem ctx st (Item.chunk s)).placed = st.placed ∧
        (stepItem ctx st (Item.chunk s)).x = st.x ∧
        (stepItem ctx st (Item.chunk s)).y = st.y ∧
        (stepItem ctx st (Item.chunk s)).textPool =
          (getTextFromPool st).1.textPool + 1) ∧
    (st2.x = 0 → ∃ pl, (stepItem ctx st2 it).placed = st2.placed ++ [pl] ∧
        pl.x = 0 ∧ pl.lineY = st2.y) := by
  refine ⟨layout_placed_fits ctx m hm items _ (by simp [initialBState]), ?_, ?_, ?_⟩
  · intro hx hovf
    simp [placeNode_placed, hx, hovf]
  · intro hx hovf hws
    have hx1 : 0 < (getTextFromPool st).1.x := (getTextFromPool_layout st).2.1 ▸ hx
    have hovf1 : overflows ctx (getTextFromPool st).1.x (ctx.textWidth s) = true :=
      (getTextFromPool_layout st).2.1 ▸ hovf
    simp only [stepItem, if_pos (And.intro hx1 hovf1), if_pos hws]
    exact ⟨(getTextFromPool_layout st).1, (getTextFromPool_layout st).2.1,
      (getTextFromPool_layout st).2.2, trivial⟩
  · intro hx0
    cases it with
    | tok part =>
      refine ⟨_, stepItem_tok_placed ctx st2 part, ?_, ?_⟩ <;> simp [hx0]
    | chunk s2 =>
      have hx1 : (getTextFromPool st2).1.x = 0 := by
        rw [(getTextFromPool_layout st2).2.1, hx0]
      have hc : ¬ (0 < (getTextFromPool st2).1.x ∧
          overflows ctx (getTextFromPool st2).1.x (ctx.textWidth s2) = true) := by
        rw [hx1]; rintro ⟨h, _⟩; exact absurd h (lt_irrefl 0)
      have hc2 : ¬ (0 < (getTextFromPool st2).1.x ∧
          overflows ctx (getTextFromPool st2).1.x (nodeWidth ctx (Node.text s2)) = true) := by
        rw [hx1]; rintro ⟨h, _⟩; exact absurd h (lt_irrefl 0)
      refine ⟨⟨Node.text s2, (getTextFromPool st2).1.x, (getTextFromPool st2).1.y,
        nodeWidth ctx (Node.text s2)⟩, ?_, by rw [hx1], (getTextFromPool_layout st2).2.2⟩
      simp only [stepItem, if_neg hc]
      rw [placeNode_placed, if_neg hc2, if_neg hc2, (getTextFromPool_layout st2).1]

/-- C3 witness: a chunk that wraps, a whitespace chunk that is dropped, and a
line-start placement, at concrete inputs. -/
theorem build_wrap_spec_witness :
    ((placeNode sampleCtx wrapState (Node.text "abcde")).placed =
      wrapState.placed ++ [⟨Node.text "abcde", 0,
        wrapState.y + sampleCtx.lineHeight + sampleCtx.lineGap,
        nodeWidth sampleCtx (Node.text "abcde")⟩]) ∧
    (stepItem sampleCtx wrapState (Item.chunk "   ")).placed = wrapState.placed ∧
    ∃ pl, (stepItem sampleCtx (initialBState 0 0) (Item.chunk "wide")).placed =
        (initialBState 0 0).placed ++ [pl] ∧ pl.x = 0 := by
  obtain ⟨-, h2, h3, h4⟩ := build_wrap_spec sampleCtx 100 rfl [] 0 0 wrapState
    (initialBState 0 0) (Node.text "abcde") "   " (Item.chunk "wide")
  refine ⟨h2 ?_ ?_, (h3 ?_ ?_ ?_).1, ?_⟩
  · norm_num [wrapState]
  · have hne : ("abcde" = "   ") = False := eq_false (by decide)
    norm_num [overflows, sampleCtx, wrapState, nodeWidth, hne]
  · norm_num [wrapState]
  · norm_num [overflows, sampleCtx, wrapState]
  · decide
  · obtain ⟨pl, hpl, hx, -⟩ := h4 rfl
    exact ⟨pl, hpl, hx⟩

theorem countTexts_append (a b : List Node) :
    countTexts (a ++ b) = countTexts a + countTexts b := by
  simp [countTexts, List.filter_append]

theorem countSprites_append (a b : List Node) :
    countSprites (a ++ b) = countSprites a + countSprites b := by
  simp [countSprites, List.filter_append]

theorem placeNode_pools (ctx : Ctx) (st : BState) (node : Node) :
    (placeNode ctx st node).textPool = st.textPool ∧
    (placeNode ctx st node).spritePool = st.spritePool := by
  by_cases hc : 0 < st.x ∧ overflows ctx st.x (nodeWidth ctx node) = true
  · simp [placeNode, hc]
  · simp [placeNode, hc]

theorem btotal_pushText (b : BState) :
    btotalTexts { b with textPool := b.textPool + 1 } = btotalTexts b + 1 ∧
    btotalSprites { b with textPool := b.textPool + 1 } = btotalSprites b := by
  constructor
  · simp only [btotalTexts]
    omega
  · rfl

theorem btotalTexts_placeNode (ctx : Ctx) (st : BState) (node : Node) :
    btotalTexts (placeNode ctx st node) = btotalTexts st + countTexts [node] := by
  unfold btotalTexts
  rw [placeNode_placed, (placeNode_pools ctx st node).1, List.map_append,
    countTexts_append]
  simp
  omega

theorem btotalSprites_placeNode (ctx : Ctx) (st : BState) (node : Node) :
    btotalSprites (placeNode ctx st node) = btotalSprites st + countSprites [node] := by
  unfold btotalSprites
  rw [placeNode_placed, (placeNode_pools ctx st node).2, List.map_append,
    countSprites_append]
  simp
  omega

theorem btotalTexts_getText (st : BState) :
    btotalTexts st ≤ btotalTexts (getTextFromPool st).1 + 1 ∧
    btotalTexts (getTextFromPool st).1 ≤ btotalTexts st := by
  unfold btotalTexts getTextFromPool
  split <;> simp <;> omega

theorem btotalSprites_getSprite (st : BState) :
    btotalSprites st ≤ btotalSprites (getSpriteFromPool st).1 + 1 ∧
    btotalSprites (getSpriteFromPool st).1 ≤ btotalSprites st := by
  unfold btotalSprites getSpriteFromPool
  split <;> simp <;> omega

theorem btotalTexts_getSprite (st : BState) :
    btotalTexts (getSpriteFromPool st).1 = btotalTexts st := by
  unfold btotalTexts getSpriteFromPool
  split <;> rfl

theorem btotalSprites_getText (st : BState) :
    btotalSprites (getTextFromPool st).1 = btotalSprites st := by
  unfold btotalSprites getTextFromPool
  split <;> rfl

/-- One layout step never loses a pooled-or-placed object of either kind. -/
theorem btotal_stepItem_mono (ctx : Ctx) (st : BState) (it : Item) :
    btotalTexts st ≤ btotalTexts (stepItem ctx st it) ∧
    btotalSprites st ≤ btotalSprites (stepItem ctx st it) := by
  cases it with
  | tok part =>
    cases hR : renderToken ctx part with
    | sprite tex scale =>
      simp only [stepItem, hR]
      constructor
      · rw [btotalTexts_placeNode, btotalTexts_getSprite]
        simp [countTexts]
      · rw [btotalSprites_placeNode]
        have := (btotalSprites_getSprite st).1
        simp only [countSprites, List.filter, List.length]
        omega
    | text s =>
      simp only [stepItem, hR]
      constructor
      · rw [btotalTexts_placeNode]
        have := (btotalTexts_getText st).1
        simp only [countTexts, List.filter, List.length]
        omega
      · rw [btotalSprites_placeNode, btotalSprites_getText]
        simp [countSprites]
  | chunk s =>
    simp only [stepItem]
    split
    · split
      · constructor
        · rw [(btotal_pushText (getTextFromPool st).1).1]
          have := (btotalTexts_getText st).1
          omega
        · rw [(btotal_pushText (getTextFromPool st).1).2, btotalSprites_getText]
      · constructor
        · rw [btotalTexts_placeNode]
          have := (btotalTexts_getText st).1
          simp only [countTexts, List.filter, List.length]
          omega
        · rw [btotalSprites_placeNode, btotalSprites_getText]
          simp [countSprites]
    · constructor
      · rw [btotalTexts_placeNode]
        have := (btotalTexts_getText st).1
        simp only [countTexts, List.filter, List.length]
        omega
      · rw [btotalSprites_placeNode, btotalSprites_getText]
        simp [countSprites]

theorem btotal_layout_mono (ctx : Ctx) (items : List Item) (st0 : BState) :
    btotalTexts st0 ≤ btotalTexts (layout ctx items st0) ∧
    btotalSprites st0 ≤ btotalSprites (layout ctx items st0) := by
  induction items generalizing st0 with
  | nil => exact ⟨le_refl _, le_refl _⟩
  | cons it rest ih =>
    have h1 := btotal_stepItem_mono ctx st0 it
    have h2 := ih (stepItem ctx st0 it)
    exact ⟨le_trans h1.1 h2.1, le_trans h1.2 h2.2⟩

theorem totalTexts_build (ctx : Ctx) (text : String) (st : MTState) :
    totalTexts st ≤ totalTexts (build ctx text st) ∧
    totalSprites st ≤ totalSprites (build ctx text st) := by
  have h := btotal_layout_mono ctx (buildItems text)
    (initialBState (returnToPool st).textPool (returnToPool st).spritePool)
  have hstart1 : btotalTexts (initialBState (returnToPool st).textPool
      (returnToPool st).spritePool) = totalTexts st := by
    simp [btotalTexts, initialBState, returnToPool, totalTexts, countTexts]
    omega
  have hstart2 : btotalSprites (initialBState (returnToPool st).textPool
      (returnToPool st).spritePool) = totalSprites st := by
    simp [btotalSprites, initialBState, returnToPool, totalSprites, countSprites]
    omega
  constructor
  · calc totalTexts st = _ := hstart1.symm
      _ ≤ _ := h.1
      _ = totalTexts (build ctx text st) := rfl
  · calc totalSprites st = _ := hstart2.symm
      _ ≤ _ := h.2
      _ = totalSprites (build ctx text st) := rfl

/-- C5: rebuilding conserves element objects through the pools: `returnToPool`
empties the element list and pushes every `Text` onto the text pool and every
`Sprite` onto the sprite pool; the pool getters create a new object exactly
when the matching pool is empty, and otherwise reuse a pooled one; one
`setText` never decreases the placed-plus-pooled totals of either kind; and
neither does any sequence of `setText` calls. -/
theorem pooling_spec (ctx : Ctx) (st : MTState) (b : BState) (text : String)
    (texts : List String) :
    ((returnToPool st).elements = [] ∧
     (returnToPool st).textPool = st.textPool + countTexts st.elements ∧
     (returnToPool st).spritePool = st.spritePool + countSprites st.elements) ∧
    ((getTextFromPool b).2 = true ↔ b.textPool = 0) ∧
    ((getSpriteFromPool b).2 = true ↔ b.spritePool = 0) ∧
    (0 < b.textPool → (getTextFromPool b).1.textPool = b.textPool - 1 ∧
        (getTextFromPool b).1.newTexts = b.newTexts) ∧
    (0 < b.spritePool → (getSpriteFromPool b).1.spritePool = b.spritePool - 1 ∧
        (getSpriteFromPool b).1.newSprites = b.newSprites) ∧
    (totalTexts st ≤ totalTexts (setText ctx text st) ∧
     totalSprites st ≤ totalSprites (setText ctx text st)) ∧
    totalTexts st ≤ totalTexts (texts.foldl (fun s t => setText ctx t s) st) := by
  refine ⟨⟨rfl, rfl, rfl⟩, ?_, ?_, ?_, ?_, totalTexts_build ctx text st, ?_⟩
  · unfold getTextFromPool
    split <;> simp <;> omega
  · unfold getSpriteFromPool
    split <;> simp <;> omega
  · intro h
    unfold getTextFromPool
    rw [if_pos h]
    exact ⟨rfl, rfl⟩
  · intro h
    unfold getSpriteFromPool
    rw [if_pos h]
    exact ⟨rfl, rfl⟩
  · induction texts generalizing st with
    | nil => exact le_refl _
    | cons t rest ih =>
      exact le_trans (totalTexts_build ctx t st).1 (ih (setText ctx t st))

/-- C5 witness at concrete states. -/
theorem pooling_spec_witness :
    (returnToPool ⟨[Node.text "a"], 2, 0⟩).textPool = 2 + countTexts [Node.text "a"] ∧
    (getTextFromPool pooledB).1.textPool = pooledB.textPool - 1 ∧
    totalTexts ⟨[Node.text "a"], 2, 0⟩ ≤
      totalTexts (setText sampleCtx "hi" ⟨[Node.text "a"], 2, 0⟩) := by
  have h := pooling_spec sampleCtx ⟨[Node.text "a"], 2, 0⟩ pooledB "hi" ["x"]
  exact ⟨h.1.2.1, (h.2.2.2.1 (by decide)).1, h.2.2.2.2.2.1.1⟩

theorem restore_length (es : List ElemVis) (ss : List (ℚ × ℚ)) :
    (restore es ss).length = es.length := by
  induction es generalizing ss with
  | nil => cases ss <;> rfl
  | cons e es ih =>
    cases ss with
    | nil => simp [restore, ih]
    | cons s ss => simp [restore, ih]

theorem restore_alpha (es : List ElemVis) (ss : List (ℚ × ℚ)) :
    ∀ (i : Nat) (e : ElemVis), (restore es ss)[i]? = some e → e.alpha = 1 := by
  induction es generalizing ss with
  | nil =>
    intro i e h
    cases ss <;> simp [restore] at h
  | cons a es ih =>
    intro i e h
    cases ss with
    | nil =>
      cases i with
      | zero =>
        simp [restore] at h
        rw [← h]
      | succ j =>
        simp only [restore, List.getElem?_cons_succ] at h
        exact ih [] j e h
    | cons s ss =>
      cases i with
      | zero =>
        simp [restore] at h
        rw [← h]
      | succ j =>
        simp only [restore, List.getElem?_cons_succ] at h
        exact ih ss j e h

theorem restore_scale (es : List ElemVis) (ss : List (ℚ × ℚ)) :
    ∀ (i : Nat) (e : ElemVis) (s : ℚ × ℚ), es[i]? = some e → ss[i]? = some s →
      (restore es ss)[i]? = some { e with alpha := 1, sx := s.1, sy := s.2 } := by
  induction es generalizing ss with
  | nil =>
    intro i e s he _
    simp at he
  | cons a es ih =>
    intro i e s he hs
    cases ss with
    | nil => simp at hs
    | cons s0 ss =>
      cases i with
      | zero =>
        simp at he hs
        subst he
        subst hs
        simp [restore]
      | succ j =>
        simp only [List.getElem?_cons_succ] at he hs
        simp only [restore, List.getElem?_cons_succ]
        exact ih ss j e s he hs

/-- C6: `typewrite` with no elements invokes `onComplete` immediately (the
returned flag) and leaves `isTyping` false; with elements it sets `isTyping`
true and does not invoke `onComplete` immediately.  `stopTypewrite` kills the
timeline, clears `isTyping`, sets every element's alpha to 1, and restores the
recorded original x and y scale of every element that has one. -/
theorem typewriter_spec (st : TWState) :
    (st.elements = [] → typewrite st = (stopTypewrite st, true) ∧
        (typewrite st).1.isTyping = false) ∧
    (st.elements ≠ [] → (typewrite st).1.isTyping = true ∧
        (typewrite st).2 = false) ∧
    (stopTypewrite st).timelineActive = false ∧
    (stopTypewrite st).isTyping = false ∧
    (∀ (i : Nat) (e : ElemVis), (stopTypewrite st).elements[i]? = some e → e.alpha = 1) ∧
    (∀ (i : Nat) (e : ElemVis) (s : ℚ × ℚ),
        st.elements[i]? = some e → st.originalScales[i]? = some s →
        (stopTypewrite st).elements[i]? =
          some { e with alpha := 1, sx := s.1, sy := s.2 }) := by
  refine ⟨?_, ?_, rfl, rfl, restore_alpha st.elements st.originalScales,
    restore_scale st.elements st.originalScales⟩
  · intro h
    have hemp : (stopTypewrite st).elements.isEmpty = true := by
      have : (stopTypewrite st).elements = [] := by
        show restore st.elements st.originalScales = []
        rw [h]
        cases st.originalScales <;> rfl
      rw [this]
      rfl
    constructor
    · simp only [typewrite]
      rw [if_pos hemp]
    · simp only [typewrite]
      rw [if_pos hemp]
      rfl
  · intro h
    have hne : ¬ ((stopTypewrite st).elements.isEmpty = true) := by
      have hlen := restore_length st.elements st.originalScales
      show ¬ ((restore st.elements st.originalScales).isEmpty = true)
      cases hr : restore st.elements st.originalScales with
      | nil =>
        rw [hr] at hlen
        exact absurd (List.length_eq_zero.mp hlen.symm) h
      | cons a l => simp
    constructor
    · simp only [typewrite]
      rw [if_neg hne]
    · simp only [typewrite]
      rw [if_neg hne]

/-- C6 witness at concrete states. -/
theorem typewriter_spec_witness :
    (typewrite ⟨[], [], false, false⟩).2 = true ∧
    (typewrite ⟨[⟨1, 2, 3⟩], [], false, false⟩).1.isTyping = true ∧
    (stopTypewrite ⟨[⟨0, 5, 5⟩], [(2, 3)], true, true⟩).elements[0]? =
      some ⟨1, 2, 3⟩ := by
  have h1 := typewriter_spec ⟨[], [], false, false⟩
  have h2 := typewriter_spec ⟨[⟨1, 2, 3⟩], [], false, false⟩
  have h3 := typewriter_spec ⟨[⟨0, 5, 5⟩], [(2, 3)], true, true⟩
  refine ⟨?_, (h2.2.1 (by simp)).1, ?_⟩
  · rw [(h1.1 rfl).1]
  · have := h3.2.2.2.2.2 0 ⟨0, 5, 5⟩ (2, 3) rfl rfl
    simpa using this

end MixedText

namespace Seeds

theorem findStack_eq (s : Seed) (l : List Seed) :
    Named.findStack s l = P4.findStack s l := by
  induction l with
  | nil => rfl
  | cons o rest ih =>
    simp only [Named.findStack, P4.findStack]
    rw [ih]

theorem sinkPhysics_eq (others : List Seed) (s : Seed) :
    Named.sinkPhysics others s = P4.sinkPhysics others s := by
  unfold Named.sinkPhysics P4.sinkPhysics
  simp only [findStack_eq]

theorem stepSeed_eq (env : Env) (i : Nat) (others : List Seed) (s : Seed) :
    Named.stepSeed env i others s = P4.stepSeed env i others s := by
  unfold Named.stepSeed P4.stepSeed Named.physicsPhase P4.physicsPhase
    Named.magnetPhase P4.magnetPhase
  simp only [sinkPhysics_eq]

theorem runSeeds_eq (env : Env) (todo : List Seed) : ∀ (done : List Seed) (i : Nat),
    Named.runSeeds env done i todo = P4.runSeeds env done i todo := by
  induction todo with
  | nil => intro done i; rfl
  | cons s todo ih =>
    intro done i
    simp only [Named.runSeeds, P4.runSeeds, stepSeed_eq]
    rw [ih]

theorem explodePhase_eq (env : Env) (stepped : List (Seed × Bool)) :
    Named.explodePhase env stepped = P4.explodePhase env stepped := rfl

/-- C10: the two `SeedsScene.update` implementations share the per-frame seed
physics: on the same seeds, magnet state, time, delta and random draws the
named file's core loop (magnet attraction, state machine, gathering and
explosion) produces exactly the unnamed variant's `update` output — identical
positions, velocities, states and magnet flag — and the named `update` is that
shared core followed only by off-screen recycling and the full-stack restart
check. -/
theorem seeds_equivalence (env : Env) (seeds : List Seed) (st : Named.NamedState) :
    Named.updateCore env seeds = P4.update env seeds ∧
    Named.update env st =
      (let env1 := { env with magnetActive := st.magnetActive }
       let core := P4.update env1 st.seeds
       let rec1 := Named.recycle core.1
       Named.restartPhase env1
         { st with
           seeds := rec1.1
           magnetActive := core.2
           seedPool := st.seedPool + rec1.2 }) := by
  have hcore : ∀ e ss, Named.updateCore e ss = P4.update e ss := by
    intro e ss
    unfold Named.updateCore P4.update
    rw [runSeeds_eq, explodePhase_eq]
  refine ⟨hcore env seeds, ?_⟩
  unfold Named.update
  simp only [hcore]

namespace Named

/-- The magnet phase either leaves the seed alone or pulls it 5% toward the
magnet and forces SINKING; the flag is the gathered test. -/
theorem magnetPhase_spec (env : Env) (s : Seed) :
    (magnetAttracts env s = false → magnetPhase env s = (s, false)) ∧
    (magnetAttracts env s = true → magnetPhase env s =
      ({ s with
          x := s.x + (env.magnetX - s.x) * (1/20)
          y := s.y + (env.magnetY - s.y) * (1/20)
          state := SeedState.SINKING },
        magnetGathers env s)) := by
  by_cases h1 : env.magnetActive = true ∧
      (s.state = SeedState.FLOATING ∨ s.state = SeedState.SINKING ∨
        s.state = SeedState.STACKED)
  · by_cases h2 : (env.magnetX - s.x) * (env.magnetX - s.x) +
        (env.magnetY - s.y) * (env.magnetY - s.y) < 250 * 250
    · constructor
      · intro hf
        exfalso
        rw [magnetAttracts] at hf
        simp [h1.1, h1.2, h2] at hf
      · intro _
        rw [magnetPhase]
        rw [if_pos h1, if_pos h2]
        have : magnetGathers env s = decide ((env.magnetX - s.x) * (env.magnetX - s.x) +
            (env.magnetY - s.y) * (env.magnetY - s.y) < 30 * 30) := by
          rw [magnetGathers, magnetAttracts]
          simp [h1.1, h1.2, h2]
        rw [this]
    · constructor
      · intro _
        rw [magnetPhase, if_pos h1, if_neg h2]
      · intro ht
        exfalso
        rw [magnetAttracts] at ht
        simp [h1.1, h1.2, h2] at ht
  · constructor
    · intro _
      rw [magnetPhase, if_neg h1]
    · intro ht
      exfalso
      rw [magnetAttracts] at ht
      simp at ht
      exact h1 ⟨ht.1, ht.2.1⟩

theorem magnetAttracts_false_of_state (env : Env) (s : Seed)
    (h : s.state = SeedState.FALLING ∨ s.state = SeedState.EXPLODED) :
    magnetAttracts env s = false := by
  rw [magnetAttracts]
  rcases h with h | h <;> simp [h]

/-- `findStack` finds a STACKED seed within 15px/20px and returns its y. -/
theorem findStack_spec (s : Seed) (l : List Seed) (oy : ℚ)
    (h : findStack s l = some oy) :
    ∃ o ∈ l, o.state = SeedState.STACKED ∧ o.y = oy ∧
      |s.x - o.x| < 15 ∧ |s.y - o.y| < 20 := by
  induction l with
  | nil => simp [findStack] at h
  | cons o rest ih =>
    rw [findStack] at h
    split at h
    · rename_i hcond
      refine ⟨o, by simp, hcond.1, by injection h, hcond.2.1, hcond.2.2⟩
    · obtain ⟨o2, hmem, h1, h2, h3, h4⟩ := ih h
      exact ⟨o2, by simp [hmem], h1, h2, h3, h4⟩

/-- `sinkPhysics` only produces SINKING or STACKED, and a STACKED result sits
at or below the ground level whenever every STACKED neighbour does. -/
theorem sinkPhysics_spec (others : List Seed) (s : Seed)
    (hs : s.state = SeedState.SINKING)
    (hothers : ∀ o ∈ others, o.state = SeedState.STACKED → o.y ≤ GROUND_LEVEL) :
    ((sinkPhysics others s).state = SeedState.SINKING ∨
      (sinkPhysics others s).state = SeedState.STACKED) ∧
    ((sinkPhysics others s).state = SeedState.STACKED →
      (sinkPhysics others s).y ≤ GROUND_LEVEL) := by
  unfold sinkPhysics
  by_cases hg : s.y + s.vy > GROUND_LEVEL
  · simp only [if_pos hg]
    cases hf : findStack { s with y := GROUND_LEVEL, state := SeedState.STACKED } others with
    | none => exact ⟨Or.inr rfl, fun _ => le_refl _⟩
    | some oy =>
      obtain ⟨o, hmem, ho1, ho2, _, _⟩ := findStack_spec _ _ _ hf
      refine ⟨Or.inr rfl, fun _ => ?_⟩
      have hoy : o.y ≤ GROUND_LEVEL := hothers o hmem ho1
      rw [← ho2]
      show o.y - 18 ≤ GROUND_LEVEL
      linarith
  · simp only [if_neg hg]
    cases hf : findStack { s with y := s.y + s.vy } others with
    | none =>
      refine ⟨Or.inl hs, fun hst => ?_⟩
      rw [hst] at hs
      exact absurd hs.symm (by simp)
    | some oy =>
      obtain ⟨o, hmem, ho1, ho2, _, _⟩ := findStack_spec _ _ _ hf
      refine ⟨Or.inr rfl, fun _ => ?_⟩
      have hoy : o.y ≤ GROUND_LEVEL := hothers o hmem ho1
      rw [← ho2]
      show o.y - 18 ≤ GROUND_LEVEL
      linarith

/-- `sinkPhysics` leaves the seed SINKING or makes it STACKED. -/
theorem sinkPhysics_states (others : List Seed) (s : Seed)
    (hs : s.state = SeedState.SINKING) :
    (sinkPhysics others s).state = SeedState.SINKING ∨
    (sinkPhysics others s).state = SeedState.STACKED := by
  unfold sinkPhysics
  by_cases hg : s.y + s.vy > GROUND_LEVEL
  · simp only [if_pos hg]
    cases findStack { s with y := GROUND_LEVEL, state := SeedState.STACKED } others
    · exact Or.inr rfl
    · exact Or.inr rfl
  · simp only [if_neg hg]
    cases findStack { s with y := s.y + s.vy } others
    · exact Or.inl hs
    · exact Or.inr rfl

theorem stepSeed_eq_phys (env : Env) (i : Nat) (others : List Seed) (s : Seed)
    (he : ¬ s.state = SeedState.EXPLODED) :
    (stepSeed env i others s).1 = physicsPhase env i others (magnetPhase env s).1 ∧
    (stepSeed env i others s).2 = (magnetPhase env s).2 := by
  rw [stepSeed, if_neg he]
  exact ⟨rfl, rfl⟩

theorem physicsPhase_stacked_id (env : Env) (i : Nat) (others : List Seed) (s : Seed)
    (hs : s.state = SeedState.STACKED) :
    physicsPhase env i others s = s := by
  simp [physicsPhase, hs]

theorem physicsPhase_sinking (env : Env) (i : Nat) (others : List Seed) (s : Seed)
    (hs : s.state = SeedState.SINKING) :
    physicsPhase env i others s = sinkPhysics others s := by
  simp [physicsPhase, hs]

theorem magnetPhase_fst_of_not_attracts (env : Env) (s : Seed)
    (hA : magnetAttracts env s = false) : (magnetPhase env s).1 = s := by
  rw [(magnetPhase_spec env s).1 hA]

/-- FALLING: the magnet ignores the seed; it falls by `vy` and starts floating
(with `vy` zeroed) exactly when it passes the water level. -/
theorem stepSeed_falling (env : Env) (i : Nat) (others : List Seed) (s : Seed)
    (hs : s.state = SeedState.FALLING) :
    ((stepSeed env i others s).1.state = SeedState.FLOATING ↔
      s.y + s.vy > WATER_LEVEL) ∧
    ((stepSeed env i others s).1.state = SeedState.FLOATING →
      (stepSeed env i others s).1.vy = 0) ∧
    ((stepSeed env i others s).1.state = SeedState.FLOATING ∨
      (stepSeed env i others s).1.state = SeedState.FALLING) := by
  have hA : magnetAttracts env s = false :=
    magnetAttracts_false_of_state env s (Or.inl hs)
  have hp := magnetPhase_fst_of_not_attracts env s hA
  have he : ¬ s.state = SeedState.EXPLODED := by rw [hs]; simp
  rw [(stepSeed_eq_phys env i others s he).1, hp]
  by_cases hw : s.y + s.vy > WATER_LEVEL
  · simp [physicsPhase, hs, hw]
  · simp [physicsPhase, hs, hw]

/-- FLOATING without magnet pull: bobbing, and SINKING exactly when the
decremented float timer is not positive. -/
theorem stepSeed_floating_nomagnet (env : Env) (i : Nat) (others : List Seed)
    (s : Seed) (hs : s.state = SeedState.FLOATING)
    (hA : magnetAttracts env s = false) :
    ((stepSeed env i others s).1.state = SeedState.SINKING ↔
      s.floatTimer - env.delta ≤ 0) ∧
    ((stepSeed env i others s).1.state = SeedState.SINKING ∨
      (stepSeed env i others s).1.state = SeedState.FLOATING) := by
  have hp := magnetPhase_fst_of_not_attracts env s hA
  have he : ¬ s.state = SeedState.EXPLODED := by rw [hs]; simp
  rw [(stepSeed_eq_phys env i others s he).1, hp]
  by_cases ht : s.floatTimer - env.delta ≤ 0
  · simp [physicsPhase, hs, ht]
  · simp [physicsPhase, hs, ht]

/-- FLOATING with magnet pull: forced SINKING, possibly STACKED the same
frame. -/
theorem stepSeed_floating_magnet (env : Env) (i : Nat) (others : List Seed)
    (s : Seed) (hs : s.state = SeedState.FLOATING)
    (hA : magnetAttracts env s = true) :
    (stepSeed env i others s).1.state = SeedState.SINKING ∨
    (stepSeed env i others s).1.state = SeedState.STACKED := by
  have he : ¬ s.state = SeedState.EXPLODED := by rw [hs]; simp
  have hp : (magnetPhase env s).1 = { s with
      x := s.x + (env.magnetX - s.x) * (1/20)
      y := s.y + (env.magnetY - s.y) * (1/20)
      state := SeedState.SINKING } := by
    rw [(magnetPhase_spec env s).2 hA]
  rw [(stepSeed_eq_phys env i others s he).1, hp, physicsPhase_sinking _ _ _ _ rfl]
  exact sinkPhysics_states _ _ rfl

/-- SINKING past the ground: clamped and STACKED (or restacked 18px above a
neighbour), never below the ground when no STACKED neighbour is. -/
theorem stepSeed_sinking_clamp (env : Env) (i : Nat) (others : List Seed)
    (s : Seed) (hs : s.state = SeedState.SINKING)
    (hA : magnetAttracts env s = false)
    (hothers : ∀ o ∈ others, o.state = SeedState.STACKED → o.y ≤ GROUND_LEVEL)
    (hg : s.y + s.vy > GROUND_LEVEL) :
    (stepSeed env i others s).1.state = SeedState.STACKED ∧
    (stepSeed env i others s).1.y ≤ GROUND_LEVEL := by
  have hp := magnetPhase_fst_of_not_attracts env s hA
  have he : ¬ s.state = SeedState.EXPLODED := by rw [hs]; simp
  rw [(stepSeed_eq_phys env i others s he).1, hp, physicsPhase_sinking _ _ _ _ hs]
  have hstacked : (sinkPhysics others s).state = SeedState.STACKED := by
    unfold sinkPhysics
    simp only [if_pos hg]
    cases findStack { s with y := GROUND_LEVEL, state := SeedState.STACKED } others
    · rfl
    · rfl
  exact ⟨hstacked, (sinkPhysics_spec others s hs hothers).2 hstacked⟩

/-- SINKING near a STACKED seed (and not past the ground): settles exactly
18px above it. -/
theorem stepSeed_sinking_settle (env : Env) (i : Nat) (others : List Seed)
    (s : Seed) (oy : ℚ) (hs : s.state = SeedState.SINKING)
    (hA : magnetAttracts env s = false)
    (hg : ¬ s.y + s.vy > GROUND_LEVEL)
    (hf : findStack { s with y := s.y + s.vy } others = some oy) :
    (stepSeed env i others s).1 =
      { s with y := oy - 18, state := SeedState.STACKED } := by
  have hp := magnetPhase_fst_of_not_attracts env s hA
  have he : ¬ s.state = SeedState.EXPLODED := by rw [hs]; simp
  rw [(stepSeed_eq_phys env i others s he).1, hp, physicsPhase_sinking _ _ _ _ hs]
  unfold sinkPhysics
  simp only [if_neg hg]
  rw [hf]

/-- The gathered flag is exactly `magnetGathers`: active magnet, attractable
state, within 30px before the pull. -/
theorem stepSeed_gathered_eq (env : Env) (i : Nat) (others : List Seed) (s : Seed) :
    (stepSeed env i others s).2 = magnetGathers env s := by
  by_cases he : s.state = SeedState.EXPLODED
  · rw [stepSeed, if_pos he]
    show false = magnetGathers env s
    rw [magnetGathers, magnetAttracts]
    simp [he]
  · rw [(stepSeed_eq_phys env i others s he).2]
    cases hA : magnetAttracts env s
    · rw [(magnetPhase_spec env s).1 hA]
      show false = magnetGathers env s
      rw [magnetGathers]
      simp [hA]
    · rw [(magnetPhase_spec env s).2 hA]

theorem magnetGathers_states (env : Env) (s : Seed)
    (h : magnetGathers env s = true) :
    s.state = SeedState.FLOATING ∨ s.state = SeedState.SINKING ∨
      s.state = SeedState.STACKED := by
  rw [magnetGathers, magnetAttracts] at h
  simp at h
  exact h.1.2.1

/-- One step changes the state only along the (composed) claimed transitions. -/
theorem stepSeed_trans (env : Env) (i : Nat) (others : List Seed) (s : Seed) :
    stateTransOk s.state (stepSeed env i others s).1.state = true := by
  by_cases he : s.state = SeedState.EXPLODED
  · rw [stepSeed, if_pos he]
    show stateTransOk s.state s.state = true
    rw [he]
    rfl
  · cases hstate : s.state with
    | FALLING =>
      rcases (stepSeed_falling env i others s hstate).2.2 with h | h <;>
        rw [h] <;> rfl
    | FLOATING =>
      cases hA : magnetAttracts env s with
      | false =>
        rcases (stepSeed_floating_nomagnet env i others s hstate hA).2 with h | h <;>
          rw [h] <;> rfl
      | true =>
        rcases stepSeed_floating_magnet env i others s hstate hA with h | h <;>
          rw [h] <;> rfl
    | SINKING =>
      cases hA : magnetAttracts env s with
      | false =>
        have hp := magnetPhase_fst_of_not_attracts env s hA
        rw [(stepSeed_eq_phys env i others s he).1, hp,
          physicsPhase_sinking _ _ _ _ hstate]
        rcases sinkPhysics_states others s hstate with h | h <;> rw [h] <;> rfl
      | true =>
        have hp : (magnetPhase env s).1 = { s with
            x := s.x + (env.magnetX - s.x) * (1/20)
            y := s.y + (env.magnetY - s.y) * (1/20)
            state := SeedState.SINKING } := by
          rw [(magnetPhase_spec env s).2 hA]
        rw [(stepSeed_eq_phys env i others s he).1, hp,
          physicsPhase_sinking _ _ _ _ rfl]
        rcases sinkPhysics_states _ _ (rfl :
            ({ s with
                x := s.x + (env.magnetX - s.x) * (1/20)
                y := s.y + (env.magnetY - s.y) * (1/20)
                state := SeedState.SINKING } : Seed).state = SeedState.SINKING)
          with h | h <;> rw [h] <;> rfl
    | STACKED =>
      cases hA : magnetAttracts env s with
      | false =>
        have hp := magnetPhase_fst_of_not_attracts env s hA
        rw [(stepSeed_eq_phys env i others s he).1, hp,
          physicsPhase_stacked_id _ _ _ _ hstate, hstate]
        rfl
      | true =>
        have hp : (magnetPhase env s).1 = { s with
            x := s.x + (env.magnetX - s.x) * (1/20)
            y := s.y + (env.magnetY - s.y) * (1/20)
            state := SeedState.SINKING } := by
          rw [(magnetPhase_spec env s).2 hA]
        rw [(stepSeed_eq_phys env i others s he).1, hp,
          physicsPhase_sinking _ _ _ _ rfl]
        rcases sinkPhysics_states _ _ (rfl :
            ({ s with
                x := s.x + (env.magnetX - s.x) * (1/20)
                y := s.y + (env.magnetY - s.y) * (1/20)
                state := SeedState.SINKING } : Seed).state = SeedState.SINKING)
          with h | h <;> rw [h] <;> rfl
    | EXPLODED => exact absurd hstate he

/-- One step keeps a STACKED seed at or below the ground, given the same for
every other STACKED seed in the array. -/
theorem stepSeed_stacked (env : Env) (i : Nat) (others : List Seed) (s : Seed)
    (hothers : ∀ o ∈ others, o.state = SeedState.STACKED → o.y ≤ GROUND_LEVEL)
    (hs : s.state = SeedState.STACKED → s.y ≤ GROUND_LEVEL) :
    (stepSeed env i others s).1.state = SeedState.STACKED →
      (stepSeed env i others s).1.y ≤ GROUND_LEVEL := by
  by_cases he : s.state = SeedState.EXPLODED
  · rw [stepSeed, if_pos he]
    intro hpost
    simp [he] at hpost
  · cases hA : magnetAttracts env s with
    | false =>
      have hp := magnetPhase_fst_of_not_attracts env s hA
      rw [(stepSeed_eq_phys env i others s he).1, hp]
      cases hstate : s.state with
      | FALLING =>
        by_cases hw : s.y + s.vy > WATER_LEVEL <;> simp [physicsPhase, hstate, hw]
      | FLOATING =>
        by_cases ht : s.floatTimer - env.delta ≤ 0 <;> simp [physicsPhase, hstate, ht]
      | SINKING =>
        rw [physicsPhase_sinking _ _ _ _ hstate]
        exact (sinkPhysics_spec others s hstate hothers).2
      | STACKED =>
        rw [physicsPhase_stacked_id _ _ _ _ hstate]
        intro _
        exact hs hstate
      | EXPLODED => exact absurd hstate he
    | true =>
      have hp : (magnetPhase env s).1 = { s with
          x := s.x + (env.magnetX - s.x) * (1/20)
          y := s.y + (env.magnetY - s.y) * (1/20)
          state := SeedState.SINKING } := by
        rw [(magnetPhase_spec env s).2 hA]
      rw [(stepSeed_eq_phys env i others s he).1, hp,
        physicsPhase_sinking _ _ _ _ rfl]
      exact (sinkPhysics_spec others _ rfl hothers).2

theorem runSeeds_getElem (env : Env) (todo : List Seed) :
    ∀ (done : List Seed) (i j : Nat) (s0 : Seed), todo[j]? = some s0 →
      ∃ others, (runSeeds env done i todo)[j]? =
        some (stepSeed env (i + j) others s0) := by
  induction todo with
  | nil =>
    intro done i j s0 h
    simp at h
  | cons s todo ih =>
    intro done i j s0 h
    cases j with
    | zero =>
      simp at h
      subst h
      exact ⟨done ++ todo, by simp [runSeeds]⟩
    | succ j =>
      simp only [List.getElem?_cons_succ] at h
      obtain ⟨others, ho⟩ :=
        ih (done ++ [(stepSeed env i (done ++ todo) s).1]) (i + 1) j s0 h
      refine ⟨others, ?_⟩
      simp only [runSeeds, List.getElem?_cons_succ]
      rw [show i + (j + 1) = i + 1 + j by omega]
      exact ho

theorem runSeeds_stacked (env : Env) (todo : List Seed) :
    ∀ (done : List Seed) (i : Nat),
      (∀ o ∈ done, o.state = SeedState.STACKED → o.y ≤ GROUND_LEVEL) →
      (∀ o ∈ todo, o.state = SeedState.STACKED → o.y ≤ GROUND_LEVEL) →
      ∀ p ∈ runSeeds env done i todo,
        p.1.state = SeedState.STACKED → p.1.y ≤ GROUND_LEVEL := by
  induction todo with
  | nil =>
    intro done i _ _ p hp
    simp [runSeeds] at hp
  | cons s todo ih =>
    intro done i hdone htodo p hp
    have hothers : ∀ o ∈ done ++ todo,
        o.state = SeedState.STACKED → o.y ≤ GROUND_LEVEL := by
      intro o ho
      rcases List.mem_append.mp ho with h | h
      · exact hdone o h
      · exact htodo o (List.mem_cons_of_mem s h)
    have hhead := stepSeed_stacked env i (done ++ todo) s hothers
      (htodo s (List.mem_cons_self s todo))
    simp only [runSeeds] at hp
    rcases List.mem_cons.mp hp with rfl | h
    · exact hhead
    · refine ih (done ++ [(stepSeed env i (done ++ todo) s).1]) (i + 1) ?_ ?_ p h
      · intro o ho
        rcases List.mem_append.mp ho with h2 | h2
        · exact hdone o h2
        · rw [List.mem_singleton] at h2
          subst h2
          exact hhead
      · intro o ho
        exact htodo o (List.mem_cons_of_mem s ho)

theorem mapWithIdx_getElem {α β : Type} (f : Nat → α → β) (l : List α) :
    ∀ (i j : Nat), (mapWithIdx f i l)[j]? = (l[j]?).map (f (i + j)) := by
  induction l with
  | nil => intro i j; simp [mapWithIdx]
  | cons a l ih =>
    intro i j
    cases j with
    | zero => simp [mapWithIdx]
    | succ j =>
      simp only [mapWithIdx, List.getElem?_cons_succ]
      rw [ih (i + 1) j, show i + (j + 1) = i + 1 + j by omega]

/-- With 10 or more gathered seeds, every gathered seed explodes with the
drawn angle and the magnet deactivates. -/
theorem explodePhase_spec (env : Env) (stepped : List (Seed × Bool))
    (hcount : 10 ≤ (stepped.filter fun p => p.2).length) :
    (explodePhase env stepped).2 = false ∧
    ∀ (j : Nat) (p : Seed × Bool), stepped[j]? = some p → p.2 = true →
      (explodePhase env stepped).1[j]? = some (explodeSeed env j p.1) := by
  unfold explodePhase
  rw [if_pos hcount]
  refine ⟨rfl, ?_⟩
  intro j p hj hflag
  show (mapWithIdx _ 0 stepped)[j]? = _
  rw [mapWithIdx_getElem, hj]
  simp [hflag]

/-- Below 10 gathered seeds nothing explodes and the magnet stays as it was. -/
theorem explodePhase_small (env : Env) (stepped : List (Seed × Bool))
    (hcount : (stepped.filter fun p => p.2).length < 10) :
    (explodePhase env stepped).2 = env.magnetActive ∧
    (explodePhase env stepped).1 = stepped.map fun p => p.1 := by
  unfold explodePhase
  rw [if_neg (by omega)]
  exact ⟨rfl, rfl⟩

/-- The STACKED-below-ground invariant is preserved by the whole core update. -/
theorem updateCore_stacked (env : Env) (seeds : List Seed)
    (hpre : ∀ s0 ∈ seeds, s0.state = SeedState.STACKED → s0.y ≤ GROUND_LEVEL) :
    ∀ s1 ∈ (updateCore env seeds).1,
      s1.state = SeedState.STACKED → s1.y ≤ GROUND_LEVEL := by
  intro s1 hmem
  have hrun := runSeeds_stacked env seeds [] 0 (by simp) hpre
  unfold updateCore explodePhase at hmem
  split at hmem
  · obtain ⟨j, hj⟩ := List.mem_iff_getElem?.mp hmem
    rw [mapWithIdx_getElem] at hj
    cases hp : (runSeeds env [] 0 seeds)[j]? with
    | none => rw [hp] at hj; simp at hj
    | some p =>
      rw [hp] at hj
      simp only [Option.map_some'] at hj
      injection hj with hj
      cases hflag : p.2 with
      | false =>
        rw [hflag] at hj
        simp at hj
        rw [← hj]
        exact hrun p (List.getElem?_mem hp)
      | true =>
        rw [hflag] at hj
        simp at hj
        intro hst
        rw [← hj] at hst
        exact absurd hst (by simp [explodeSeed])
  · obtain ⟨p, hpmem, rfl⟩ := List.mem_map.mp hmem
    exact hrun p hpmem

/-- Every seed's state change over one core update is in the transition
closure. -/
theorem updateCore_trans (env : Env) (seeds : List Seed) :
    ∀ (j : Nat) (s0 s1 : Seed), seeds[j]? = some s0 →
      (updateCore env seeds).1[j]? = some s1 →
      stateTransOk s0.state s1.state = true := by
  intro j s0 s1 h0 h1
  obtain ⟨others, hstep⟩ := runSeeds_getElem env seeds [] 0 j s0 h0
  rw [Nat.zero_add] at hstep
  unfold updateCore explodePhase at h1
  split at h1
  · rw [mapWithIdx_getElem, hstep] at h1
    simp only [Option.map_some'] at h1
    injection h1 with h1
    cases hflag : (stepSeed env j others s0).2 with
    | false =>
      rw [hflag] at h1
      simp at h1
      rw [← h1]
      exact stepSeed_trans env j others s0
    | true =>
      rw [hflag] at h1
      simp at h1
      have hG : magnetGathers env s0 = true := by
        rw [← stepSeed_gathered_eq env j others s0]
        exact hflag
      have hstate : s1.state = SeedState.EXPLODED := by
        rw [← h1]
        rfl
      rw [hstate]
      rcases magnetGathers_states env s0 hG with h | h | h <;> rw [h] <;> rfl
  · rw [List.getElem?_map, hstep] at h1
    simp only [Option.map_some'] at h1
    injection h1 with h1
    rw [← h1]
    exact stepSeed_trans env j others s0

/-- C7: per frame, seed states move only along the claimed transitions (and
their same-frame compositions): a FALLING seed starts FLOATING with `vy`
zeroed exactly when its fall passes `WATER_LEVEL`; a FLOATING seed (absent
magnet pull) turns SINKING exactly when its decremented float timer is not
positive, and magnet pull forces SINKING (possibly STACKED the same frame); a
SINKING seed past `GROUND_LEVEL` is clamped there and STACKED, never ending
below ground, and one near a STACKED seed (found within 15px/20px) settles
exactly 18px above it; the gathered flag means the active magnet is within
30px; with 10 or more gathered seeds every gathered seed turns EXPLODED with
velocity `(cos θ, sin θ) * 15` — magnitude 15 — and the magnet deactivates; a
STACKED seed's y never exceeds `GROUND_LEVEL`; and no seed ever returns to
FALLING or FLOATING. -/
theorem seeds_state_machine (env : Env) (seeds : List Seed) (i : Nat)
    (others : List Seed) (sf sl sk : Seed) (oy : ℚ)
    (stepped : List (Seed × Bool)) :
    (sf.state = SeedState.FALLING →
      ((Named.stepSeed env i others sf).1.state = SeedState.FLOATING ↔
        sf.y + sf.vy > WATER_LEVEL) ∧
      ((Named.stepSeed env i others sf).1.state = SeedState.FLOATING →
        (Named.stepSeed env i others sf).1.vy = 0)) ∧
    (sl.state = SeedState.FLOATING → magnetAttracts env sl = false →
      ((Named.stepSeed env i others sl).1.state = SeedState.SINKING ↔
        sl.floatTimer - env.delta ≤ 0)) ∧
    (sl.state = SeedState.FLOATING → magnetAttracts env sl = true →
      (Named.stepSeed env i others sl).1.state = SeedState.SINKING ∨
      (Named.stepSeed env i others sl).1.state = SeedState.STACKED) ∧
    (sk.state = SeedState.SINKING → magnetAttracts env sk = false →
      (∀ o ∈ others, o.state = SeedState.STACKED → o.y ≤ GROUND_LEVEL) →
      sk.y + sk.vy > GROUND_LEVEL →
      (Named.stepSeed env i others sk).1.state = SeedState.STACKED ∧
      (Named.stepSeed env i others sk).1.y ≤ GROUND_LEVEL) ∧
    (sk.state = SeedState.SINKING → magnetAttracts env sk = false →
      ¬ sk.y + sk.vy > GROUND_LEVEL →
      Named.findStack { sk with y := sk.y + sk.vy } others = some oy →
      (Named.stepSeed env i others sk).1 =
        { sk with y := oy - 18, state := SeedState.STACKED }) ∧
    (Named.findStack sk others = some oy →
      ∃ o ∈ others, o.state = SeedState.STACKED ∧ o.y = oy ∧
        |sk.x - o.x| < 15 ∧ |sk.y - o.y| < 20) ∧
    ((Named.stepSeed env i others sf).2 = magnetGathers env sf) ∧
    (10 ≤ (stepped.filter fun p => p.2).length →
      (Named.explodePhase env stepped).2 = false ∧
      ∀ (j : Nat) (p : Seed × Bool), stepped[j]? = some p → p.2 = true →
        (Named.explodePhase env stepped).1[j]? =
          some (Named.explodeSeed env j p.1)) ∧
    ((Named.explodeSeed env i sf).state = SeedState.EXPLODED ∧
     (Named.explodeSeed env i sf).vx = env.cosO (env.randAngle i) * 15 ∧
     (Named.explodeSeed env i sf).vy = env.sinO (env.randAngle i) * 15 ∧
     (env.cosO (env.randAngle i) * env.cosO (env.randAngle i) +
        env.sinO (env.randAngle i) * env.sinO (env.randAngle i) = 1 →
      (Named.explodeSeed env i sf).vx * (Named.explodeSeed env i sf).vx +
        (Named.explodeSeed env i sf).vy * (Named.explodeSeed env i sf).vy =
        15 * 15)) ∧
    ((∀ s0 ∈ seeds, s0.state = SeedState.STACKED → s0.y ≤ GROUND_LEVEL) →
      ∀ s1 ∈ (Named.updateCore env seeds).1,
        s1.state = SeedState.STACKED → s1.y ≤ GROUND_LEVEL) ∧
    (∀ (j : Nat) (s0 s1 : Seed), seeds[j]? = some s0 →
      (Named.updateCore env seeds).1[j]? = some s1 →
      stateTransOk s0.state s1.state = true) := by
  refine ⟨?_, ?_, ?_, ?_, ?_, Named.findStack_spec sk others oy,
    Named.stepSeed_gathered_eq env i others sf,
    Named.explodePhase_spec env stepped, ⟨rfl, rfl, rfl, ?_⟩,
    Named.updateCore_stacked env seeds, Named.updateCore_trans env seeds⟩
  · intro hs
    exact ⟨(Named.stepSeed_falling env i others sf hs).1,
      (Named.stepSeed_falling env i others sf hs).2.1⟩
  · intro hs hA
    exact (Named.stepSeed_floating_nomagnet env i others sl hs hA).1
  · exact Named.stepSeed_floating_magnet env i others sl
  · exact fun hs hA => Named.stepSeed_sinking_clamp env i others sk hs hA
  · exact Named.stepSeed_sinking_settle env i others sk oy
  · intro h
    show env.cosO (env.randAngle i) * 15 * (env.cosO (env.randAngle i) * 15) +
        env.sinO (env.randAngle i) * 15 * (env.sinO (env.randAngle i) * 15) = 15 * 15
    nlinarith [h]

/-- C7 witness: a falling seed, a settling sinking seed, a 10-seed explosion
and the ground invariant, at concrete inputs. -/
theorem seeds_state_machine_witness :
    ((Named.stepSeed quietEnv 0 [stackSeed] fallSeed).1.state = SeedState.FLOATING ↔
      fallSeed.y + fallSeed.vy > WATER_LEVEL) ∧
    (Named.stepSeed quietEnv 0 [stackSeed] sinkSeed).1 =
      { sinkSeed with y := 1000 - 18, state := SeedState.STACKED } ∧
    (Named.explodePhase quietEnv (List.replicate 10 gatherPair)).2 = false ∧
    (∀ s1 ∈ (Named.updateCore quietEnv [fallSeed]).1,
        s1.state = SeedState.STACKED → s1.y ≤ GROUND_LEVEL) := by
  have h := seeds_state_machine quietEnv [fallSeed] 0 [stackSeed] fallSeed
    floatSeed sinkSeed 1000 (List.replicate 10 gatherPair)
  have hA : magnetAttracts quietEnv sinkSeed = false := by
    rw [magnetAttracts]
    simp [quietEnv]
  have hg : ¬ sinkSeed.y + sinkSeed.vy > GROUND_LEVEL := by
    show ¬ (1008 : ℚ) + 2 > GROUND_LEVEL
    rw [GROUND_LEVEL, sceneH]
    norm_num [designHeight]
  have hcond : stackSeed.state = SeedState.STACKED ∧
      |({ sinkSeed with y := sinkSeed.y + sinkSeed.vy } : Seed).x - stackSeed.x| < 15 ∧
      |({ sinkSeed with y := sinkSeed.y + sinkSeed.vy } : Seed).y - stackSeed.y| < 20 := by
    refine ⟨rfl, ?_, ?_⟩
    · show |(0 : ℚ) - 0| < 15
      rw [sub_self, abs_zero]
      norm_num
    · show |(1008 : ℚ) + 2 - 1000| < 20
      rw [show (1008 : ℚ) + 2 - 1000 = 10 by norm_num,
        show |(10 : ℚ)| = 10 from abs_of_pos (by norm_num)]
      norm_num
  have hf : Named.findStack { sinkSeed with y := sinkSeed.y + sinkSeed.vy }
      [stackSeed] = some 1000 := by
    rw [Named.findStack, if_pos hcond]
    rfl
  refine ⟨(h.1 rfl).1, ?_, (h.2.2.2.2.2.2.2.1 (by decide)).1,
    h.2.2.2.2.2.2.2.2.2.1 (by decide)⟩
  exact h.2.2.2.2.1 rfl hA hg hf

end Named

end Seeds

end PixiExamples
